import Mathlib

/-!
Shallow embedding of the simulation core of the Wedding-Run endless-runner
game (src/components/GameScreen.tsx, first variant).  Numbers are modelled
as rationals; the per-frame `update` callback becomes a pure function from
the mutable state aggregate and the frame inputs (timestamp plus the two
`Math.random()` draws a spawning tick consumes) to the next state together
with the optional `onGameOver` emission.
-/

namespace WeddingRun

/-! ### Constants (GameScreen.tsx lines 33-62) -/

def CANVAS_W : ℚ := 800
def CANVAS_H : ℚ := 450
def GROUND_HEIGHT : ℚ := 80
def GROUND_Y : ℚ := CANVAS_H - GROUND_HEIGHT
def PLAYER_BASE_Y : ℚ := GROUND_Y + 18
def PLAYER_BASE_WIDTH : ℚ := 70
def PLAYER_BASE_HEIGHT : ℚ := 110
def GRAVITY : ℚ := 8/10
def JUMP_STRENGTH : ℚ := -15
def INITIAL_SPEED : ℚ := 5
def MAX_SPEED : ℚ := 22
def ACCELERATION : ℚ := 3/100
def SPAWN_BASE_MIN : ℚ := 70
def SPAWN_BASE_VAR : ℚ := 80
def GAME_OVER_DELAY : ℚ := 1000

/-! ### Data model -/

inductive PlayerAnimState where
  | run
  | jump
  | die
deriving DecidableEq, Repr

inductive ObstacleType where
  | GROUND_SMALL
  | GROUND_LARGE
  | FLYING_SMALL
  | FLYING_LARGE
deriving DecidableEq, Repr

structure Player where
  x : ℚ
  y : ℚ
  dy : ℚ
  isJumping : Bool
  width : ℚ
  height : ℚ
  animState : PlayerAnimState
  runFrame : ℕ
  runAnimTimer : ℚ
deriving DecidableEq, Repr

structure Obstacle where
  type : ObstacleType
  x : ℚ
  y : ℚ
  width : ℚ
  height : ℚ
  markedForDeletion : Bool
deriving DecidableEq, Repr

/-- The single mutable aggregate: `gameState` ref plus `scoreRef` and
`lastTimeRef` from the component. -/
structure GameState where
  isPlaying : Bool
  hasGameOverSent : Bool
  gameOverTimerMs : ℚ
  speed : ℚ
  frameCount : ℕ
  nextSpawnThreshold : ℚ
  bgFarOffset : ℚ
  bgMidOffset : ℚ
  groundOffset : ℚ
  player : Player
  obstacles : List Obstacle
  score : ℚ
  lastTime : ℚ
deriving DecidableEq, Repr

/-- The external inputs one `update(time)` callback consumes: the frame
timestamp and the two `Math.random()` draws used if an obstacle spawns. -/
structure UpdateIn where
  time : ℚ
  r1 : ℚ
  r2 : ℚ
deriving DecidableEq, Repr, Inhabited

/-! ### Initial state (GameScreen.tsx lines 92-120, 538) -/

def initPlayer : Player :=
  { x := 130, y := PLAYER_BASE_Y, dy := 0, isJumping := false,
    width := PLAYER_BASE_WIDTH, height := PLAYER_BASE_HEIGHT,
    animState := .run, runFrame := 0, runAnimTimer := 0 }

def initState (t0 : ℚ) : GameState :=
  { isPlaying := true, hasGameOverSent := false, gameOverTimerMs := 0,
    speed := INITIAL_SPEED, frameCount := 0,
    nextSpawnThreshold := SPAWN_BASE_MIN,
    bgFarOffset := 0, bgMidOffset := 0, groundOffset := 0,
    player := initPlayer, obstacles := [], score := 0, lastTime := t0 }

/-! ### Input handlers (lines 190-207) -/

def startJump (s : GameState) : GameState :=
  if s.isPlaying then
    if s.player.isJumping then s
    else { s with player := { s.player with
             dy := JUMP_STRENGTH, isJumping := true, animState := .jump } }
  else s

def endJumpPlayer (p : Player) : Player :=
  if p.isJumping ∧ p.dy < -2 then { p with dy := p.dy * (45/100) } else p

def endJump (s : GameState) : GameState :=
  { s with player := endJumpPlayer s.player }

/-! ### Tick pieces (lines 212-378) -/

/-- Line 219: `const dtMs = time - (lastTimeRef.current || time)`. -/
def dtOf (s : GameState) (time : ℚ) : ℚ :=
  time - (if s.lastTime = 0 then time else s.lastTime)

/-- Lines 226-234: game-over countdown and the one-shot emission. -/
def gameOverTick (s : GameState) (dt : ℚ) : GameState × Option ℤ :=
  if s.isPlaying then (s, none)
  else if s.hasGameOverSent then (s, none)
  else
    let t := s.gameOverTimerMs - dt
    if t ≤ 0 then
      ({ s with gameOverTimerMs := t, hasGameOverSent := true }, some ⌊s.score⌋)
    else
      ({ s with gameOverTimerMs := t }, none)

/-- Lines 237-242: score accrual (reads the pre-ramp speed). -/
def scoreTick (s : GameState) (dt : ℚ) : GameState :=
  if s.isPlaying then
    { s with score := s.score + (8/100) * (s.speed / INITIAL_SPEED) * (dt / (1667/100)) }
  else s

/-- Lines 257-268: gravity integration and the ground clamp. -/
def physStepPlayer (p : Player) : Player :=
  let dy := p.dy + GRAVITY
  let y := p.y + dy
  if y > PLAYER_BASE_Y then
    if p.isJumping then
      { p with y := PLAYER_BASE_Y, dy := 0, isJumping := false, animState := .run }
    else
      { p with y := PLAYER_BASE_Y, dy := 0 }
  else
    { p with y := y, dy := dy }

/-- Lines 271-280: two-frame run-cycle animation. -/
def runAnimStep (p : Player) (dt : ℚ) : Player :=
  if p.animState = .run then
    let t := p.runAnimTimer + dt
    if t > 120 then
      { p with runAnimTimer := 0, runFrame := if p.runFrame = 0 then 1 else 0 }
    else
      { p with runAnimTimer := t }
  else
    { p with runAnimTimer := 0, runFrame := 0 }

/-- Lines 287-335: obstacle built from the type draw, with the sizes taken
from `assetConfig` (assets.ts) and the scales of lines 300-326. -/
def spawnObstacle (r : ℚ) : Obstacle :=
  if r < 4/10 then
    { type := .GROUND_SMALL, x := CANVAS_W + 50, y := PLAYER_BASE_Y,
      width := 113 * (45/100), height := 144 * (45/100), markedForDeletion := false }
  else if r < 7/10 then
    { type := .GROUND_LARGE, x := CANVAS_W + 50, y := PLAYER_BASE_Y,
      width := 118 * (4/10), height := 279 * (4/10), markedForDeletion := false }
  else if r < 9/10 then
    { type := .FLYING_SMALL, x := CANVAS_W + 50,
      y := PLAYER_BASE_Y - 203 * (5/10) - 30,
      width := 343 * (5/10), height := 203 * (5/10), markedForDeletion := false }
  else
    { type := .FLYING_LARGE, x := CANVAS_W + 50,
      y := PLAYER_BASE_Y - 203 * (45/100) - 40,
      width := 343 * (45/100), height := 203 * (45/100), markedForDeletion := false }

/-- Lines 283-339: frame counter, rolling spawn threshold, obstacle push. -/
def spawnTick (s : GameState) (r1 r2 : ℚ) : GameState :=
  let fc := s.frameCount + 1
  if (fc : ℚ) > s.nextSpawnThreshold then
    { s with
      frameCount := 0,
      obstacles := s.obstacles ++ [spawnObstacle r1],
      nextSpawnThreshold := SPAWN_BASE_MIN + r2 * SPAWN_BASE_VAR }
  else
    { s with frameCount := fc }

/-- Lines 342-348: scroll every obstacle left and prune the stale ones. -/
def moveObstacles (s : GameState) : GameState :=
  let obs := s.obstacles.map fun o =>
    let x := o.x - s.speed
    { o with
      x := x,
      markedForDeletion := o.markedForDeletion || decide (x + o.width < -100) }
  { s with obstacles := obs.filter fun o => !o.markedForDeletion }

/-- Lines 353-369: inset AABB hit test. -/
def collides (p : Player) (o : Obstacle) : Bool :=
  decide (p.x + p.width * (2/10) < o.x + o.width * (85/100)) &&
  decide (p.x + p.width * (8/10) > o.x + o.width * (15/100)) &&
  decide (p.y - p.height * (85/100) < o.y) &&
  decide (p.y > o.y - o.height * (9/10))

/-- Lines 359-377: first hit ends the match and arms the delay timer. -/
def collisionTick (s : GameState) : GameState :=
  if s.obstacles.any (fun o => collides s.player o) then
    { s with
      isPlaying := false,
      gameOverTimerMs := GAME_OVER_DELAY,
      player := { s.player with animState := .die } }
  else s

/-- Lines 247-378: everything guarded by `if (state.isPlaying)`. -/
def mainTick (s : GameState) (dt r1 r2 : ℚ) : GameState :=
  if s.isPlaying then
    let s1 := { s with speed := min MAX_SPEED (s.speed + ACCELERATION) }
    let s2 := { s1 with
      bgFarOffset := s1.bgFarOffset + s1.speed * (3/10),
      bgMidOffset := s1.bgMidOffset + s1.speed * (6/10),
      groundOffset := s1.groundOffset + s1.speed }
    let s3 := { s2 with player := runAnimStep (physStepPlayer s2.player) dt }
    collisionTick (moveObstacles (spawnTick s3 r1 r2))
  else s

/-- One full `update(time)` callback (lines 212-378).  Returns the next
state and the `onGameOver` argument when this tick fires it. -/
def update (s : GameState) (i : UpdateIn) : GameState × Option ℤ :=
  let dt := dtOf s i.time
  let s0 := { s with lastTime := i.time }
  let r := gameOverTick s0 dt
  (mainTick (scoreTick r.1 dt) dt i.r1 i.r2, r.2)

/-! ### Draw-time offset wrapping (lines 394, 417, 440) -/

/-- JavaScript `%` on finite numbers: remainder of truncated division. -/
def jsRem (a b : ℚ) : ℚ :=
  a - b * (if 0 ≤ a / b then (⌊a / b⌋ : ℤ) else (⌈a / b⌉ : ℤ))

/-- `((offset % w) + w) % w`, the value actually used to draw a layer. -/
def wrapOffset (o w : ℚ) : ℚ := jsRem (jsRem o w + w) w

/-! ### Multi-tick runs -/

/-- State after consuming a list of frame inputs. -/
def steps (s : GameState) : List UpdateIn → GameState
  | [] => s
  | i :: l => steps (update s i).1 l

/-- Per-tick `onGameOver` emissions along a run (one entry per tick). -/
def emits (s : GameState) : List UpdateIn → List (Option ℤ)
  | [] => []
  | i :: l => (update s i).2 :: emits (update s i).1 l

/-- State after the first `k` ticks of a match driven by inputs `l`,
starting from the freshly mounted component (`lastTimeRef := t0`). -/
def stateAfter (t0 : ℚ) (l : List UpdateIn) (k : ℕ) : GameState :=
  steps (initState t0) (l.take k)

/-- The frame timestamps are monotone and start no earlier than the
recorded previous timestamp. -/
def TimeMono (t0 : ℚ) (l : List UpdateIn) : Prop :=
  List.Chain' (· ≤ ·) (t0 :: l.map UpdateIn.time)

/-- Every `Math.random()` draw lies in `[0, 1)`. -/
def RandOK (l : List UpdateIn) : Prop :=
  ∀ i ∈ l, 0 ≤ i.r1 ∧ i.r1 < 1 ∧ 0 ≤ i.r2 ∧ i.r2 < 1

/-- The pre-state condition under which a tick spawns an obstacle
(lines 283-284: the incremented frame counter exceeds the threshold,
inside the `isPlaying` guard). -/
def spawnsAt (s : GameState) : Prop :=
  s.isPlaying = true ∧ s.nextSpawnThreshold < ((s.frameCount : ℚ) + 1)

instance (s : GameState) : Decidable (spawnsAt s) := by
  unfold spawnsAt; infer_instance

/-! ### Projection and shape lemmas for the tick pieces -/

theorem spawnTick_eq (s : GameState) (r1 r2 : ℚ) :
    spawnTick s r1 r2 =
      if ((s.frameCount : ℚ) + 1) > s.nextSpawnThreshold then
        { s with
          frameCount := 0,
          obstacles := s.obstacles ++ [spawnObstacle r1],
          nextSpawnThreshold := SPAWN_BASE_MIN + r2 * SPAWN_BASE_VAR }
      else { s with frameCount := s.frameCount + 1 } := by
  simp only [spawnTick]
  push_cast
  rfl

theorem spawnTick_isPlaying (s : GameState) (r1 r2 : ℚ) :
    (spawnTick s r1 r2).isPlaying = s.isPlaying := by
  simp only [spawnTick]; split <;> rfl

theorem spawnTick_hasGameOverSent (s : GameState) (r1 r2 : ℚ) :
    (spawnTick s r1 r2).hasGameOverSent = s.hasGameOverSent := by
  simp only [spawnTick]; split <;> rfl

theorem spawnTick_gameOverTimerMs (s : GameState) (r1 r2 : ℚ) :
    (spawnTick s r1 r2).gameOverTimerMs = s.gameOverTimerMs := by
  simp only [spawnTick]; split <;> rfl

theorem spawnTick_speed (s : GameState) (r1 r2 : ℚ) :
    (spawnTick s r1 r2).speed = s.speed := by
  simp only [spawnTick]; split <;> rfl

theorem spawnTick_player (s : GameState) (r1 r2 : ℚ) :
    (spawnTick s r1 r2).player = s.player := by
  simp only [spawnTick]; split <;> rfl

theorem spawnTick_score (s : GameState) (r1 r2 : ℚ) :
    (spawnTick s r1 r2).score = s.score := by
  simp only [spawnTick]; split <;> rfl

theorem spawnTick_lastTime (s : GameState) (r1 r2 : ℚ) :
    (spawnTick s r1 r2).lastTime = s.lastTime := by
  simp only [spawnTick]; split <;> rfl

theorem spawnTick_bgFarOffset (s : GameState) (r1 r2 : ℚ) :
    (spawnTick s r1 r2).bgFarOffset = s.bgFarOffset := by
  simp only [spawnTick]; split <;> rfl

theorem spawnTick_bgMidOffset (s : GameState) (r1 r2 : ℚ) :
    (spawnTick s r1 r2).bgMidOffset = s.bgMidOffset := by
  simp only [spawnTick]; split <;> rfl

theorem spawnTick_groundOffset (s : GameState) (r1 r2 : ℚ) :
    (spawnTick s r1 r2).groundOffset = s.groundOffset := by
  simp only [spawnTick]; split <;> rfl

theorem moveObstacles_eq (s : GameState) :
    moveObstacles s =
      { s with obstacles :=
          ((s.obstacles.map fun o =>
            { o with
              x := o.x - s.speed,
              markedForDeletion :=
                o.markedForDeletion || decide (o.x - s.speed + o.width < -100) }).filter
            (fun o => !o.markedForDeletion)) } := rfl

theorem collisionTick_pos (s : GameState)
    (h : s.obstacles.any (fun o => collides s.player o) = true) :
    collisionTick s =
      { s with
        isPlaying := false,
        gameOverTimerMs := GAME_OVER_DELAY,
        player := { s.player with animState := .die } } := by
  simp only [collisionTick, h, if_true]

theorem collisionTick_neg (s : GameState)
    (h : s.obstacles.any (fun o => collides s.player o) = false) :
    collisionTick s = s := by
  simp only [collisionTick, h]; rfl

theorem collisionTick_speed (s : GameState) :
    (collisionTick s).speed = s.speed := by
  simp only [collisionTick]; split <;> rfl

theorem collisionTick_score (s : GameState) :
    (collisionTick s).score = s.score := by
  simp only [collisionTick]; split <;> rfl

theorem collisionTick_lastTime (s : GameState) :
    (collisionTick s).lastTime = s.lastTime := by
  simp only [collisionTick]; split <;> rfl

theorem collisionTick_hasGameOverSent (s : GameState) :
    (collisionTick s).hasGameOverSent = s.hasGameOverSent := by
  simp only [collisionTick]; split <;> rfl

theorem collisionTick_frameCount (s : GameState) :
    (collisionTick s).frameCount = s.frameCount := by
  simp only [collisionTick]; split <;> rfl

theorem collisionTick_nextSpawnThreshold (s : GameState) :
    (collisionTick s).nextSpawnThreshold = s.nextSpawnThreshold := by
  simp only [collisionTick]; split <;> rfl

theorem collisionTick_obstacles (s : GameState) :
    (collisionTick s).obstacles = s.obstacles := by
  simp only [collisionTick]; split <;> rfl

theorem collisionTick_player_y (s : GameState) :
    (collisionTick s).player.y = s.player.y := by
  simp only [collisionTick]; split <;> rfl

theorem collisionTick_player_dy (s : GameState) :
    (collisionTick s).player.dy = s.player.dy := by
  simp only [collisionTick]; split <;> rfl

theorem collisionTick_player_isJumping (s : GameState) :
    (collisionTick s).player.isJumping = s.player.isJumping := by
  simp only [collisionTick]; split <;> rfl

theorem collisionTick_player_runAnimTimer (s : GameState) :
    (collisionTick s).player.runAnimTimer = s.player.runAnimTimer := by
  simp only [collisionTick]; split <;> rfl

theorem collisionTick_player_runFrame (s : GameState) :
    (collisionTick s).player.runFrame = s.player.runFrame := by
  simp only [collisionTick]; split <;> rfl

theorem collisionTick_bgFarOffset (s : GameState) :
    (collisionTick s).bgFarOffset = s.bgFarOffset := by
  simp only [collisionTick]; split <;> rfl

theorem collisionTick_bgMidOffset (s : GameState) :
    (collisionTick s).bgMidOffset = s.bgMidOffset := by
  simp only [collisionTick]; split <;> rfl

theorem collisionTick_groundOffset (s : GameState) :
    (collisionTick s).groundOffset = s.groundOffset := by
  simp only [collisionTick]; split <;> rfl

/-- The playing branch of `mainTick`, with the lets expanded. -/
theorem mainTick_playing (s : GameState) (dt r1 r2 : ℚ) (h : s.isPlaying = true) :
    mainTick s dt r1 r2 =
      collisionTick (moveObstacles (spawnTick
        { s with
          speed := min MAX_SPEED (s.speed + ACCELERATION),
          bgFarOffset := s.bgFarOffset + min MAX_SPEED (s.speed + ACCELERATION) * (3/10),
          bgMidOffset := s.bgMidOffset + min MAX_SPEED (s.speed + ACCELERATION) * (6/10),
          groundOffset := s.groundOffset + min MAX_SPEED (s.speed + ACCELERATION),
          player := runAnimStep (physStepPlayer s.player) dt } r1 r2)) := by
  simp only [mainTick, h, if_true]

theorem mainTick_not_playing (s : GameState) (dt r1 r2 : ℚ) (h : s.isPlaying = false) :
    mainTick s dt r1 r2 = s := by
  simp only [mainTick, h]; rfl

/-! ### Per-tick lemmas at the level of the whole `update` -/

theorem update_lastTime (s : GameState) (i : UpdateIn) :
    (update s i).1.lastTime = i.time := by
  by_cases h : s.isPlaying
  · simp only [update, gameOverTick, scoreTick, h, if_true]
    rw [mainTick_playing _ _ _ _ (by simp [h])]
    simp [collisionTick_lastTime, moveObstacles_eq, spawnTick_lastTime]
  · simp only [Bool.not_eq_true] at h
    simp only [update, gameOverTick, scoreTick, h, Bool.false_eq_true, if_false]
    split
    · rw [mainTick_not_playing] <;> rfl
    · split <;> (rw [mainTick_not_playing] <;> rfl)

/-- A playing tick never emits: the countdown branch is skipped. -/
theorem update_out_playing (s : GameState) (i : UpdateIn) (h : s.isPlaying = true) :
    (update s i).2 = none := by
  simp only [update, gameOverTick, h, if_true]

/-- Dead-phase tick, resulting state. -/
theorem update_dead_state (s : GameState) (i : UpdateIn) (h : s.isPlaying = false) :
    (update s i).1 =
      { s with
        lastTime := i.time,
        gameOverTimerMs :=
          if s.hasGameOverSent = true then s.gameOverTimerMs
          else s.gameOverTimerMs - dtOf s i.time,
        hasGameOverSent :=
          s.hasGameOverSent || decide (s.gameOverTimerMs - dtOf s i.time ≤ 0) } := by
  simp only [update, gameOverTick, scoreTick, h, Bool.false_eq_true, if_false]
  by_cases hs : s.hasGameOverSent
  · simp only [hs, if_true, Bool.true_or]
    rw [mainTick_not_playing _ _ _ _ (by simp [h])]
    simp [h]
  · simp only [hs, Bool.false_eq_true, if_false, Bool.false_or]
    by_cases ht : s.gameOverTimerMs - dtOf s i.time ≤ 0
    · simp only [ht, if_true, decide_eq_true_eq]
      rw [mainTick_not_playing _ _ _ _ (by simp [h])]
      simp [ht]
    · simp only [ht, if_false]
      rw [mainTick_not_playing _ _ _ _ (by simp [h])]
      simp [ht]

/-- Dead-phase tick, emission. -/
theorem update_dead_out (s : GameState) (i : UpdateIn) (h : s.isPlaying = false) :
    (update s i).2 =
      if s.hasGameOverSent = false ∧ s.gameOverTimerMs - dtOf s i.time ≤ 0 then
        some ⌊s.score⌋
      else none := by
  simp only [update, gameOverTick, h, Bool.false_eq_true, if_false]
  by_cases hs : s.hasGameOverSent
  · simp [hs]
  · simp only [Bool.not_eq_true] at hs
    by_cases ht : s.gameOverTimerMs - dtOf s i.time ≤ 0 <;> simp [hs, ht]

theorem moveObstacles_isPlaying (s : GameState) : (moveObstacles s).isPlaying = s.isPlaying := rfl
theorem moveObstacles_hasGameOverSent (s : GameState) :
    (moveObstacles s).hasGameOverSent = s.hasGameOverSent := rfl
theorem moveObstacles_gameOverTimerMs (s : GameState) :
    (moveObstacles s).gameOverTimerMs = s.gameOverTimerMs := rfl
theorem moveObstacles_speed (s : GameState) : (moveObstacles s).speed = s.speed := rfl
theorem moveObstacles_frameCount (s : GameState) :
    (moveObstacles s).frameCount = s.frameCount := rfl
theorem moveObstacles_nextSpawnThreshold (s : GameState) :
    (moveObstacles s).nextSpawnThreshold = s.nextSpawnThreshold := rfl
theorem moveObstacles_player (s : GameState) : (moveObstacles s).player = s.player := rfl
theorem moveObstacles_score (s : GameState) : (moveObstacles s).score = s.score := rfl
theorem moveObstacles_lastTime (s : GameState) : (moveObstacles s).lastTime = s.lastTime := rfl
theorem moveObstacles_bgFarOffset (s : GameState) :
    (moveObstacles s).bgFarOffset = s.bgFarOffset := rfl
theorem moveObstacles_bgMidOffset (s : GameState) :
    (moveObstacles s).bgMidOffset = s.bgMidOffset := rfl
theorem moveObstacles_groundOffset (s : GameState) :
    (moveObstacles s).groundOffset = s.groundOffset := rfl

theorem collisionTick_isPlaying (s : GameState) :
    (collisionTick s).isPlaying =
      (s.isPlaying && !(s.obstacles.any fun o => collides s.player o)) := by
  simp only [collisionTick]
  split
  · next hc => simp [hc]
  · next hc => simp at hc; simp [hc]; intro _; exact hc

theorem runAnimStep_y (p : Player) (dt : ℚ) : (runAnimStep p dt).y = p.y := by
  simp only [runAnimStep]; split <;> (try split) <;> rfl

theorem runAnimStep_dy (p : Player) (dt : ℚ) : (runAnimStep p dt).dy = p.dy := by
  simp only [runAnimStep]; split <;> (try split) <;> rfl

theorem runAnimStep_isJumping (p : Player) (dt : ℚ) :
    (runAnimStep p dt).isJumping = p.isJumping := by
  simp only [runAnimStep]; split <;> (try split) <;> rfl

theorem runAnimStep_animState (p : Player) (dt : ℚ) :
    (runAnimStep p dt).animState = p.animState := by
  simp only [runAnimStep]; split <;> (try split) <;> rfl

/-- After the physics step the feet never end below the ground line. -/
theorem physStepPlayer_y_le (p : Player) : (physStepPlayer p).y ≤ PLAYER_BASE_Y := by
  simp only [physStepPlayer]
  split
  · split <;> simp
  · next hgt => simp only [not_lt] at hgt; simpa using hgt

/-- The clamp branch of the physics step. -/
theorem physStepPlayer_clamp (p : Player) (h : PLAYER_BASE_Y < p.y + (p.dy + GRAVITY)) :
    (physStepPlayer p).y = PLAYER_BASE_Y ∧ (physStepPlayer p).dy = 0 ∧
    (physStepPlayer p).isJumping = false ∧
    (physStepPlayer p).animState = (if p.isJumping then .run else p.animState) := by
  simp only [physStepPlayer, if_pos h]
  by_cases hj : p.isJumping <;> simp [hj]

/-- The free-flight branch of the physics step. -/
theorem physStepPlayer_free (p : Player) (h : ¬ PLAYER_BASE_Y < p.y + (p.dy + GRAVITY)) :
    physStepPlayer p = { p with y := p.y + (p.dy + GRAVITY), dy := p.dy + GRAVITY } := by
  simp only [physStepPlayer, if_neg h]

theorem physStepPlayer_x (p : Player) : (physStepPlayer p).x = p.x := by
  simp only [physStepPlayer]; split <;> (try split) <;> rfl

theorem physStepPlayer_width (p : Player) : (physStepPlayer p).width = p.width := by
  simp only [physStepPlayer]; split <;> (try split) <;> rfl

theorem physStepPlayer_height (p : Player) : (physStepPlayer p).height = p.height := by
  simp only [physStepPlayer]; split <;> (try split) <;> rfl

theorem physStepPlayer_runAnimTimer (p : Player) :
    (physStepPlayer p).runAnimTimer = p.runAnimTimer := by
  simp only [physStepPlayer]; split <;> (try split) <;> rfl

theorem physStepPlayer_runFrame (p : Player) :
    (physStepPlayer p).runFrame = p.runFrame := by
  simp only [physStepPlayer]; split <;> (try split) <;> rfl

/-- The physics step never switches the animation to `die`, and never sets
`isJumping`. -/
theorem physStepPlayer_no_die (p : Player) (h : p.animState ≠ .die) :
    (physStepPlayer p).animState ≠ .die := by
  simp only [physStepPlayer]
  split
  · split <;> simp_all
  · simpa using h

/-! ### Delta-time lemmas -/

theorem dtOf_zero_lastTime (s : GameState) (t : ℚ) (h : s.lastTime = 0) :
    dtOf s t = 0 := by
  simp [dtOf, h]

theorem dtOf_eq (s : GameState) (t : ℚ) (h : s.lastTime ≠ 0) :
    dtOf s t = t - s.lastTime := by
  simp [dtOf, h]

theorem dtOf_nonneg (s : GameState) (t : ℚ) (h0 : 0 < s.lastTime) (ht : s.lastTime ≤ t) :
    0 ≤ dtOf s t := by
  rw [dtOf_eq s t (by exact ne_of_gt h0)]
  linarith

/-- Playing tick, resulting state: score accrues on the old speed, then the
main block runs. -/
theorem update_playing_state (s : GameState) (i : UpdateIn) (h : s.isPlaying = true) :
    (update s i).1 =
      mainTick
        { s with
          lastTime := i.time,
          score := s.score + (8/100) * (s.speed / INITIAL_SPEED) * (dtOf s i.time / (1667/100)) }
        (dtOf s i.time) i.r1 i.r2 := by
  simp only [update, gameOverTick, scoreTick, h, if_true]

theorem spawnTick_obstacles (s : GameState) (r1 r2 : ℚ) :
    (spawnTick s r1 r2).obstacles =
      if s.nextSpawnThreshold < (s.frameCount : ℚ) + 1 then
        s.obstacles ++ [spawnObstacle r1]
      else s.obstacles := by
  rw [spawnTick_eq]
  by_cases hs : s.nextSpawnThreshold < (s.frameCount : ℚ) + 1
  · rw [if_pos (by exact_mod_cast hs), if_pos hs]
  · rw [if_neg (by exact_mod_cast hs), if_neg hs]

theorem spawnTick_frameCount (s : GameState) (r1 r2 : ℚ) :
    (spawnTick s r1 r2).frameCount =
      if s.nextSpawnThreshold < (s.frameCount : ℚ) + 1 then 0 else s.frameCount + 1 := by
  rw [spawnTick_eq]
  by_cases hs : s.nextSpawnThreshold < (s.frameCount : ℚ) + 1
  · rw [if_pos (by exact_mod_cast hs), if_pos hs]
  · rw [if_neg (by exact_mod_cast hs), if_neg hs]

theorem spawnTick_nextSpawnThreshold (s : GameState) (r1 r2 : ℚ) :
    (spawnTick s r1 r2).nextSpawnThreshold =
      if s.nextSpawnThreshold < (s.frameCount : ℚ) + 1 then
        SPAWN_BASE_MIN + r2 * SPAWN_BASE_VAR
      else s.nextSpawnThreshold := by
  rw [spawnTick_eq]
  by_cases hs : s.nextSpawnThreshold < (s.frameCount : ℚ) + 1
  · rw [if_pos (by exact_mod_cast hs), if_pos hs]
  · rw [if_neg (by exact_mod_cast hs), if_neg hs]

/-- Speed law of a full tick. -/
theorem update_speed (s : GameState) (i : UpdateIn) :
    (update s i).1.speed =
      if s.isPlaying = true then min MAX_SPEED (s.speed + ACCELERATION) else s.speed := by
  by_cases h : s.isPlaying
  · rw [update_playing_state _ _ h, mainTick_playing _ _ _ _ (by simp [h]), if_pos h]
    simp [collisionTick_speed, moveObstacles_speed, spawnTick_speed]
  · simp only [Bool.not_eq_true] at h
    rw [update_dead_state _ _ h]
    simp [h]

/-- Score law of a full tick. -/
theorem update_score (s : GameState) (i : UpdateIn) :
    (update s i).1.score =
      if s.isPlaying = true then
        s.score + (8/100) * (s.speed / INITIAL_SPEED) * (dtOf s i.time / (1667/100))
      else s.score := by
  by_cases h : s.isPlaying
  · rw [update_playing_state _ _ h, mainTick_playing _ _ _ _ (by simp [h]), if_pos h]
    simp [collisionTick_score, moveObstacles_score, spawnTick_score]
  · simp only [Bool.not_eq_true] at h
    rw [update_dead_state _ _ h]
    simp [h]

/-- A dead match stays dead. -/
theorem update_isPlaying_dead (s : GameState) (i : UpdateIn) (h : s.isPlaying = false) :
    (update s i).1.isPlaying = false := by
  rw [update_dead_state _ _ h]
  exact h

theorem update_dead_player (s : GameState) (i : UpdateIn) (h : s.isPlaying = false) :
    (update s i).1.player = s.player := by
  rw [update_dead_state _ _ h]

theorem update_dead_obstacles (s : GameState) (i : UpdateIn) (h : s.isPlaying = false) :
    (update s i).1.obstacles = s.obstacles := by
  rw [update_dead_state _ _ h]

theorem update_dead_frameCount (s : GameState) (i : UpdateIn) (h : s.isPlaying = false) :
    (update s i).1.frameCount = s.frameCount := by
  rw [update_dead_state _ _ h]

theorem update_dead_nextSpawnThreshold (s : GameState) (i : UpdateIn)
    (h : s.isPlaying = false) :
    (update s i).1.nextSpawnThreshold = s.nextSpawnThreshold := by
  rw [update_dead_state _ _ h]

theorem update_dead_offsets (s : GameState) (i : UpdateIn) (h : s.isPlaying = false) :
    (update s i).1.bgFarOffset = s.bgFarOffset ∧
    (update s i).1.bgMidOffset = s.bgMidOffset ∧
    (update s i).1.groundOffset = s.groundOffset := by
  rw [update_dead_state _ _ h]
  exact ⟨rfl, rfl, rfl⟩

/-- Frame-counter law of a playing tick. -/
theorem update_frameCount_playing (s : GameState) (i : UpdateIn) (h : s.isPlaying = true) :
    (update s i).1.frameCount = if spawnsAt s then 0 else s.frameCount + 1 := by
  rw [update_playing_state _ _ h, mainTick_playing _ _ _ _ (by simp [h])]
  simp only [collisionTick_frameCount, moveObstacles_frameCount, spawnTick_frameCount]
  by_cases hs : s.nextSpawnThreshold < (s.frameCount : ℚ) + 1
  · rw [if_pos hs, if_pos ⟨h, hs⟩]
  · rw [if_neg hs, if_neg (fun hc => hs hc.2)]

/-- Spawn-threshold law of a playing tick. -/
theorem update_nextSpawnThreshold_playing (s : GameState) (i : UpdateIn)
    (h : s.isPlaying = true) :
    (update s i).1.nextSpawnThreshold =
      if spawnsAt s then SPAWN_BASE_MIN + i.r2 * SPAWN_BASE_VAR
      else s.nextSpawnThreshold := by
  rw [update_playing_state _ _ h, mainTick_playing _ _ _ _ (by simp [h])]
  simp only [collisionTick_nextSpawnThreshold, moveObstacles_nextSpawnThreshold,
    spawnTick_nextSpawnThreshold]
  by_cases hs : s.nextSpawnThreshold < (s.frameCount : ℚ) + 1
  · rw [if_pos hs, if_pos ⟨h, hs⟩]
  · rw [if_neg hs, if_neg (fun hc => hs hc.2)]

/-- Obstacle-list law of a playing tick: possible spawn, then scroll by the
fresh speed, then prune. -/
theorem update_obstacles_playing (s : GameState) (i : UpdateIn) (h : s.isPlaying = true) :
    (update s i).1.obstacles =
      (((if spawnsAt s then s.obstacles ++ [spawnObstacle i.r1] else s.obstacles).map
          fun o =>
            { o with
              x := o.x - min MAX_SPEED (s.speed + ACCELERATION),
              markedForDeletion := o.markedForDeletion ||
                decide (o.x - min MAX_SPEED (s.speed + ACCELERATION) + o.width < -100) }).filter
        (fun o => !o.markedForDeletion)) := by
  rw [update_playing_state _ _ h, mainTick_playing _ _ _ _ (by simp [h])]
  simp only [collisionTick_obstacles, moveObstacles_eq, spawnTick_obstacles, spawnTick_speed]
  by_cases hs : s.nextSpawnThreshold < (s.frameCount : ℚ) + 1
  · rw [if_pos hs, if_pos ⟨h, hs⟩]
  · rw [if_neg hs, if_neg (fun hc => hs hc.2)]

theorem update_playing_hasGameOverSent (s : GameState) (i : UpdateIn)
    (h : s.isPlaying = true) :
    (update s i).1.hasGameOverSent = s.hasGameOverSent := by
  rw [update_playing_state _ _ h, mainTick_playing _ _ _ _ (by simp [h])]
  simp [collisionTick_hasGameOverSent, moveObstacles_hasGameOverSent, spawnTick_hasGameOverSent]

theorem update_playing_player_y (s : GameState) (i : UpdateIn) (h : s.isPlaying = true) :
    (update s i).1.player.y = (physStepPlayer s.player).y := by
  rw [update_playing_state _ _ h, mainTick_playing _ _ _ _ (by simp [h])]
  simp [collisionTick_player_y, moveObstacles_player, spawnTick_player, runAnimStep_y]

theorem update_playing_player_dy (s : GameState) (i : UpdateIn) (h : s.isPlaying = true) :
    (update s i).1.player.dy = (physStepPlayer s.player).dy := by
  rw [update_playing_state _ _ h, mainTick_playing _ _ _ _ (by simp [h])]
  simp [collisionTick_player_dy, moveObstacles_player, spawnTick_player, runAnimStep_dy]

theorem update_playing_player_isJumping (s : GameState) (i : UpdateIn)
    (h : s.isPlaying = true) :
    (update s i).1.player.isJumping = (physStepPlayer s.player).isJumping := by
  rw [update_playing_state _ _ h, mainTick_playing _ _ _ _ (by simp [h])]
  simp [collisionTick_player_isJumping, moveObstacles_player, spawnTick_player,
    runAnimStep_isJumping]

theorem update_playing_offsets (s : GameState) (i : UpdateIn) (h : s.isPlaying = true) :
    (update s i).1.bgFarOffset =
      s.bgFarOffset + min MAX_SPEED (s.speed + ACCELERATION) * (3/10) ∧
    (update s i).1.bgMidOffset =
      s.bgMidOffset + min MAX_SPEED (s.speed + ACCELERATION) * (6/10) ∧
    (update s i).1.groundOffset =
      s.groundOffset + min MAX_SPEED (s.speed + ACCELERATION) := by
  rw [update_playing_state _ _ h, mainTick_playing _ _ _ _ (by simp [h])]
  refine ⟨?_, ?_, ?_⟩ <;>
    simp [collisionTick_bgFarOffset, collisionTick_bgMidOffset, collisionTick_groundOffset,
      moveObstacles_bgFarOffset, moveObstacles_bgMidOffset, moveObstacles_groundOffset,
      spawnTick_bgFarOffset, spawnTick_bgMidOffset, spawnTick_groundOffset]

/-- On the collision tick itself: the match stops, the death animation is
set, the delay timer is armed, and nothing is emitted yet. -/
theorem update_collision (s : GameState) (i : UpdateIn) (h : s.isPlaying = true)
    (hc : (update s i).1.isPlaying = false) :
    (update s i).1.gameOverTimerMs = GAME_OVER_DELAY ∧
    (update s i).1.player.animState = .die ∧
    (update s i).1.hasGameOverSent = s.hasGameOverSent ∧
    (update s i).2 = none := by
  refine ⟨?_, ?_, update_playing_hasGameOverSent s i h, update_out_playing s i h⟩ <;>
  · rw [update_playing_state _ _ h, mainTick_playing _ _ _ _ (by simp [h])] at hc ⊢
    revert hc
    simp only [collisionTick]
    split <;> simp [moveObstacles_isPlaying, spawnTick_isPlaying, h]

/-- On a playing tick without collision: still playing, timer untouched,
animation as the physics step leaves it. -/
theorem update_no_collision (s : GameState) (i : UpdateIn) (h : s.isPlaying = true)
    (hc : (update s i).1.isPlaying = true) :
    (update s i).1.gameOverTimerMs = s.gameOverTimerMs ∧
    (update s i).1.player.animState = (physStepPlayer s.player).animState := by
  rw [update_playing_state _ _ h, mainTick_playing _ _ _ _ (by simp [h])] at hc ⊢
  revert hc
  simp only [collisionTick]
  split
  · simp [moveObstacles_isPlaying, spawnTick_isPlaying]
  · intro _
    constructor
    · simp [moveObstacles_gameOverTimerMs, spawnTick_gameOverTimerMs]
    · simp [moveObstacles_player, spawnTick_player, runAnimStep_animState]

theorem update_playing_player_runAnimTimer (s : GameState) (i : UpdateIn)
    (h : s.isPlaying = true) :
    (update s i).1.player.runAnimTimer =
      (runAnimStep (physStepPlayer s.player) (dtOf s i.time)).runAnimTimer := by
  rw [update_playing_state _ _ h, mainTick_playing _ _ _ _ (by simp [h])]
  simp [collisionTick_player_runAnimTimer, moveObstacles_player, spawnTick_player]

theorem update_playing_player_runFrame (s : GameState) (i : UpdateIn)
    (h : s.isPlaying = true) :
    (update s i).1.player.runFrame =
      (runAnimStep (physStepPlayer s.player) (dtOf s i.time)).runFrame := by
  rw [update_playing_state _ _ h, mainTick_playing _ _ _ _ (by simp [h])]
  simp [collisionTick_player_runFrame, moveObstacles_player, spawnTick_player]

theorem runAnimStep_timer_bounds (p : Player) (dt : ℚ) (h0 : 0 ≤ p.runAnimTimer)
    (hdt : 0 ≤ dt) :
    0 ≤ (runAnimStep p dt).runAnimTimer ∧ (runAnimStep p dt).runAnimTimer ≤ 120 := by
  simp only [runAnimStep]
  split
  · split
    · exact ⟨le_refl 0, by norm_num⟩
    · next hgt => simp only [not_lt] at hgt; exact ⟨by simpa using add_nonneg h0 hdt, by simpa using hgt⟩
  · exact ⟨le_refl 0, by norm_num⟩

/-! ### Multi-tick run lemmas -/

theorem steps_nil (s : GameState) : steps s [] = s := rfl

theorem steps_cons (s : GameState) (i : UpdateIn) (l : List UpdateIn) :
    steps s (i :: l) = steps (update s i).1 l := rfl

theorem emits_nil (s : GameState) : emits s [] = [] := rfl

theorem emits_cons (s : GameState) (i : UpdateIn) (l : List UpdateIn) :
    emits s (i :: l) = (update s i).2 :: emits (update s i).1 l := rfl

theorem steps_append (a b : List UpdateIn) : ∀ s : GameState,
    steps s (a ++ b) = steps (steps s a) b := by
  induction a with
  | nil => intro s; rfl
  | cons i a ih => intro s; simp only [List.cons_append, steps_cons]; exact ih _

theorem emits_length (l : List UpdateIn) : ∀ s : GameState,
    (emits s l).length = l.length := by
  induction l with
  | nil => intro s; rfl
  | cons i l ih => intro s; simp only [emits_cons, List.length_cons, ih]

theorem steps_take_succ : ∀ (l : List UpdateIn) (s : GameState) (k : ℕ), k < l.length →
    steps s (l.take (k+1)) = (update (steps s (l.take k)) (l.getD k default)).1 := by
  intro l
  induction l with
  | nil => intro s k h; simp at h
  | cons i l ih =>
    intro s k h
    cases k with
    | zero => simp [steps]
    | succ k =>
      simp only [List.take_succ_cons, steps_cons, List.getD_cons_succ]
      exact ih _ k (by simpa using h)

theorem timeMono_cons (t0 : ℚ) (i : UpdateIn) (l : List UpdateIn) :
    TimeMono t0 (i :: l) ↔ t0 ≤ i.time ∧ TimeMono i.time l := by
  simp only [TimeMono, List.map_cons, List.chain'_cons]

theorem timeMono_nil (t0 : ℚ) : TimeMono t0 [] := by
  simp [TimeMono]

theorem timeMono_take (t0 : ℚ) (l : List UpdateIn) (k : ℕ) (h : TimeMono t0 l) :
    TimeMono t0 (l.take k) := by
  induction l generalizing t0 k with
  | nil => simpa using h
  | cons i l ih =>
    cases k with
    | zero => simpa using timeMono_nil t0
    | succ k =>
      rw [timeMono_cons] at h
      rw [List.take_succ_cons, timeMono_cons]
      exact ⟨h.1, ih _ _ h.2⟩

/-! ### Reachability invariant -/

/-- Facts that hold in the freshly mounted state and are preserved by every
tick whose timestamp does not run backwards and whose draws are legal. -/
def Reach (s : GameState) : Prop :=
  INITIAL_SPEED ≤ s.speed ∧ s.speed ≤ MAX_SPEED ∧ 0 ≤ s.score ∧ 0 < s.lastTime ∧
  s.player.y ≤ PLAYER_BASE_Y ∧ SPAWN_BASE_MIN ≤ s.nextSpawnThreshold ∧
  (s.player.animState = .die → s.isPlaying = false) ∧
  (s.hasGameOverSent = true → s.isPlaying = false) ∧
  0 ≤ s.player.runAnimTimer ∧ s.player.runAnimTimer ≤ 120

theorem reach_init (t0 : ℚ) (h : 0 < t0) : Reach (initState t0) := by
  refine ⟨le_refl _, ?_, le_refl _, h, le_refl _, le_refl _, ?_, ?_, le_refl _, ?_⟩
  · norm_num [initState, INITIAL_SPEED, MAX_SPEED]
  · intro hd; exact absurd hd (by simp [initState, initPlayer])
  · intro hd; exact absurd hd (by simp [initState])
  · norm_num [initState, initPlayer]

theorem reach_step (s : GameState) (i : UpdateIn) (hR : Reach s)
    (ht : s.lastTime ≤ i.time) (hr2 : 0 ≤ i.r2) : Reach (update s i).1 := by
  obtain ⟨h1, h2, h3, h4, h5, h6, h7, h8, h9, h10⟩ := hR
  have h1' : (5:ℚ) ≤ s.speed := h1
  have h2' : s.speed ≤ (22:ℚ) := h2
  have hdt : 0 ≤ dtOf s i.time := dtOf_nonneg _ _ h4 ht
  have hlt : 0 < (update s i).1.lastTime := by
    rw [update_lastTime]; exact lt_of_lt_of_le h4 ht
  by_cases h : s.isPlaying
  · have hsc : 0 ≤ (update s i).1.score := by
      rw [update_score, if_pos h]
      have : 0 ≤ (8/100 : ℚ) * (s.speed / INITIAL_SPEED) * (dtOf s i.time / (1667/100)) := by
        have hsp : (0:ℚ) ≤ s.speed / INITIAL_SPEED := by
          apply div_nonneg (by linarith) (by norm_num [INITIAL_SPEED])
        have hdt' : (0:ℚ) ≤ dtOf s i.time / (1667/100) := by
          apply div_nonneg hdt (by norm_num)
        positivity
      linarith
    have hspd : INITIAL_SPEED ≤ (update s i).1.speed ∧ (update s i).1.speed ≤ MAX_SPEED := by
      rw [update_speed, if_pos h]
      constructor
      · refine le_min (by norm_num [INITIAL_SPEED, MAX_SPEED]) ?_
        show (5:ℚ) ≤ s.speed + (3/100)
        linarith
      · exact min_le_left _ _
    have hy : (update s i).1.player.y ≤ PLAYER_BASE_Y := by
      rw [update_playing_player_y _ _ h]; exact physStepPlayer_y_le _
    have hth : SPAWN_BASE_MIN ≤ (update s i).1.nextSpawnThreshold := by
      rw [update_nextSpawnThreshold_playing _ _ h]
      split
      · have : 0 ≤ i.r2 * SPAWN_BASE_VAR := mul_nonneg hr2 (by norm_num [SPAWN_BASE_VAR])
        linarith
      · exact h6
    have htimer := runAnimStep_timer_bounds (physStepPlayer s.player) (dtOf s i.time)
      (by rw [physStepPlayer_runAnimTimer]; exact h9) hdt
    have htm : 0 ≤ (update s i).1.player.runAnimTimer ∧
        (update s i).1.player.runAnimTimer ≤ 120 := by
      rw [update_playing_player_runAnimTimer _ _ h]; exact htimer
    refine ⟨hspd.1, hspd.2, hsc, hlt, hy, hth, ?_, ?_, htm.1, htm.2⟩
    · intro hd
      by_cases hp : (update s i).1.isPlaying
      · exfalso
        have := (update_no_collision s i h hp).2
        rw [this] at hd
        exact physStepPlayer_no_die s.player (fun hpre => by simp [h7 hpre] at h) hd
      · simpa using hp
    · intro hsent
      by_cases hp : (update s i).1.isPlaying
      · exfalso
        rw [update_playing_hasGameOverSent _ _ h] at hsent
        simp [h8 hsent] at h
      · simpa using hp
  · simp only [Bool.not_eq_true] at h
    have hst := update_dead_state s i h
    have hpl : (update s i).1.player = s.player := by rw [hst]
    have hdead : (update s i).1.isPlaying = false := by rw [hst]; exact h
    refine ⟨?_, ?_, ?_, hlt, ?_, ?_, ?_, ?_, ?_, ?_⟩
    · rw [hst]; exact h1
    · rw [hst]; exact h2
    · rw [hst]; exact h3
    · rw [hpl]; exact h5
    · rw [hst]; exact h6
    · intro _; exact hdead
    · intro _; exact hdead
    · rw [hpl]; exact h9
    · rw [hpl]; exact h10

theorem reach_steps (l : List UpdateIn) : ∀ s : GameState, Reach s →
    TimeMono s.lastTime l → (∀ i ∈ l, 0 ≤ i.r2) → Reach (steps s l) := by
  induction l with
  | nil => intro s hR _ _; exact hR
  | cons i l ih =>
    intro s hR hm hr
    rw [timeMono_cons] at hm
    rw [steps_cons]
    refine ih _ (reach_step s i hR hm.1 (hr i (by simp))) ?_ ?_
    · rw [update_lastTime]; exact hm.2
    · intro j hj; exact hr j (by simp [hj])

/-! ### Decomposition of prefixes of a run -/

theorem stateAfter_add (t0 : ℚ) (l : List UpdateIn) (k m : ℕ) (h : k ≤ m) :
    stateAfter t0 l m = steps (stateAfter t0 l k) ((l.take m).drop k) := by
  unfold stateAfter
  rw [← steps_append]
  congr 1
  conv_lhs => rw [← List.take_append_drop k (l.take m)]
  rw [List.take_take, min_eq_left h]

theorem isPlaying_absorb (l : List UpdateIn) : ∀ s : GameState,
    s.isPlaying = false → (steps s l).isPlaying = false := by
  induction l with
  | nil => intro s h; exact h
  | cons i l ih => intro s h; rw [steps_cons]; exact ih _ (update_isPlaying_dead s i h)

theorem stateAfter_playing_mono (t0 : ℚ) (l : List UpdateIn) (k m : ℕ) (h : k ≤ m)
    (hf : (stateAfter t0 l k).isPlaying = false) :
    (stateAfter t0 l m).isPlaying = false := by
  rw [stateAfter_add t0 l k m h]
  exact isPlaying_absorb _ _ hf

theorem speed_le_steps (l : List UpdateIn) : ∀ s : GameState, s.speed ≤ MAX_SPEED →
    s.speed ≤ (steps s l).speed ∧ (steps s l).speed ≤ MAX_SPEED := by
  induction l with
  | nil => exact fun s h => ⟨le_refl _, h⟩
  | cons i l ih =>
    intro s h
    have hone : s.speed ≤ (update s i).1.speed ∧ (update s i).1.speed ≤ MAX_SPEED := by
      rw [update_speed]
      split
      · refine ⟨le_min h ?_, min_le_left _ _⟩
        have hacc : (0:ℚ) ≤ ACCELERATION := by norm_num [ACCELERATION]
        linarith
      · exact ⟨le_refl _, h⟩
    rw [steps_cons]
    have hrest := ih _ hone.2
    exact ⟨le_trans hone.1 hrest.1, hrest.2⟩

/-! ### C4 -/

/-- C4: while the match is live every tick sets
`speed := min(maxSpeed, speed + acceleration)`; a dead tick leaves it
unchanged; hence over a whole match the speed is non-decreasing, stays in
`[initialSpeed, maxSpeed]`, and once it reaches `maxSpeed` it stays there. -/
theorem c4_speed_ramp (t0 : ℚ) (l : List UpdateIn) :
    (∀ k, k < l.length → (stateAfter t0 l k).isPlaying = true →
      (stateAfter t0 l (k+1)).speed =
        min MAX_SPEED ((stateAfter t0 l k).speed + ACCELERATION)) ∧
    (∀ k, k < l.length → (stateAfter t0 l k).isPlaying = false →
      (stateAfter t0 l (k+1)).speed = (stateAfter t0 l k).speed) ∧
    (∀ k m : ℕ, k ≤ m → (stateAfter t0 l k).speed ≤ (stateAfter t0 l m).speed) ∧
    (∀ k : ℕ, INITIAL_SPEED ≤ (stateAfter t0 l k).speed ∧
      (stateAfter t0 l k).speed ≤ MAX_SPEED) ∧
    (∀ k m : ℕ, k ≤ m → (stateAfter t0 l k).speed = MAX_SPEED →
      (stateAfter t0 l m).speed = MAX_SPEED) := by
  have hbounds : ∀ k : ℕ, INITIAL_SPEED ≤ (stateAfter t0 l k).speed ∧
      (stateAfter t0 l k).speed ≤ MAX_SPEED := by
    intro k
    have hinit : (initState t0).speed ≤ MAX_SPEED := by
      norm_num [initState, INITIAL_SPEED, MAX_SPEED]
    have := speed_le_steps (l.take k) (initState t0) hinit
    exact ⟨this.1, this.2⟩
  have hmono : ∀ k m : ℕ, k ≤ m →
      (stateAfter t0 l k).speed ≤ (stateAfter t0 l m).speed := by
    intro k m hkm
    rw [stateAfter_add t0 l k m hkm]
    exact (speed_le_steps _ _ (hbounds k).2).1
  refine ⟨?_, ?_, hmono, hbounds, ?_⟩
  · intro k hk hp
    unfold stateAfter at hp ⊢
    rw [steps_take_succ l _ k hk, update_speed, if_pos hp]
  · intro k hk hp
    unfold stateAfter at hp ⊢
    rw [steps_take_succ l _ k hk, update_speed, if_neg (by simp [hp])]
  · intro k m hkm hsat
    refine le_antisymm (hbounds m).2 ?_
    calc MAX_SPEED = (stateAfter t0 l k).speed := hsat.symm
    _ ≤ (stateAfter t0 l m).speed := hmono k m hkm

/-- Witness for C4 at a concrete two-tick match. -/
theorem c4_speed_ramp_witness :
    (stateAfter 1 [⟨17, 0, 0⟩, ⟨33, 0, 0⟩] 1).speed =
      min MAX_SPEED ((stateAfter 1 [⟨17, 0, 0⟩, ⟨33, 0, 0⟩] 0).speed + ACCELERATION) :=
  (c4_speed_ramp 1 [⟨17, 0, 0⟩, ⟨33, 0, 0⟩]).1 0 (by decide) (by decide)

/-! ### C5 -/

/-- C5: at the end of every tick the feet never sink below the ground line;
a tick whose integration would push `y` past `groundY` clamps `y` to
`groundY`, zeroes `dy`, ends the jump, and (if the player was jumping) puts
the animation back to `run` — unless that very tick also detects the
collision, which ends the match and sets the terminal `die` animation; a
`die` animation is never overwritten by a later tick. -/
theorem c5_ground_clamp (s : GameState) (i : UpdateIn)
    (hy : s.player.y ≤ PLAYER_BASE_Y)
    (hdie : s.player.animState = .die → s.isPlaying = false) :
    ((update s i).1.player.y ≤ PLAYER_BASE_Y) ∧
    (s.isPlaying = true → PLAYER_BASE_Y < s.player.y + (s.player.dy + GRAVITY) →
      (update s i).1.player.y = PLAYER_BASE_Y ∧
      (update s i).1.player.dy = 0 ∧
      (update s i).1.player.isJumping = false ∧
      (s.player.isJumping = true →
        ((update s i).1.isPlaying = true → (update s i).1.player.animState = .run) ∧
        ((update s i).1.isPlaying = false → (update s i).1.player.animState = .die))) ∧
    (s.player.animState = .die → (update s i).1.player.animState = .die) := by
  refine ⟨?_, ?_, ?_⟩
  · by_cases h : s.isPlaying
    · rw [update_playing_player_y _ _ h]; exact physStepPlayer_y_le _
    · simp only [Bool.not_eq_true] at h
      rw [update_dead_player _ _ h]; exact hy
  · intro h hclamp
    obtain ⟨hcy, hcdy, hcj, hcanim⟩ := physStepPlayer_clamp s.player hclamp
    refine ⟨?_, ?_, ?_, ?_⟩
    · rw [update_playing_player_y _ _ h, hcy]
    · rw [update_playing_player_dy _ _ h, hcdy]
    · rw [update_playing_player_isJumping _ _ h, hcj]
    · intro hj
      constructor
      · intro hstill
        rw [(update_no_collision s i h hstill).2, hcanim, if_pos hj]
      · intro hhit
        exact (update_collision s i h hhit).2.1
  · intro hd
    have hnp : s.isPlaying = false := hdie hd
    rw [update_dead_player _ _ hnp]
    exact hd

/-- A state one tick from touchdown, used as the C5 witness input. -/
def c5WitnessState : GameState :=
  { initState 600 with
    player :=
      { initPlayer with y := 384, dy := 4, isJumping := true, animState := .jump } }

/-- Witness for C5: a landing tick of a real jump (the player one tick from
touchdown) gets clamped back onto the ground line. -/
theorem c5_ground_clamp_witness :
    ((update c5WitnessState ⟨616, 0, 0⟩).1.player.y = PLAYER_BASE_Y ∧
     (update c5WitnessState ⟨616, 0, 0⟩).1.player.dy = 0) := by
  have h := c5_ground_clamp c5WitnessState ⟨616, 0, 0⟩
    (by norm_num [c5WitnessState, initState, initPlayer, PLAYER_BASE_Y, GROUND_Y,
      CANVAS_H, GROUND_HEIGHT])
    (by intro hcontra; simp [c5WitnessState, initState, initPlayer] at hcontra)
  have h2 := h.2.1 rfl
    (by norm_num [c5WitnessState, initState, initPlayer, PLAYER_BASE_Y, GROUND_Y,
      CANVAS_H, GROUND_HEIGHT, GRAVITY])
  exact ⟨h2.1, h2.2.1⟩

/-! ### Jump-arc machinery for C2 and C8 -/

/-- The player immediately after pressing jump on a fresh match. -/
def jumpPlayerStart : Player := (startJump (initState 1)).player

/-- Minimum foot height over the first `N+1` states of the physics
trajectory from `p` (smaller `y` = higher on screen: the arc's peak is the
minimum `y`). -/
def minY : ℕ → Player → ℚ
  | 0, p => p.y
  | N+1, p => min p.y (minY N (physStepPlayer p))

/-- Minimum foot height along the arc that holds the jump for `k` ticks,
then releases the button (the `endJump` damping), then runs `N` more
physics ticks. -/
def relMinY (k N : ℕ) : ℚ :=
  min (minY k jumpPlayerStart)
    (minY N (endJumpPlayer (physStepPlayer^[k] jumpPlayerStart)))

theorem jumpPlayerStart_eq :
    jumpPlayerStart =
      { initPlayer with dy := JUMP_STRENGTH, isJumping := true, animState := .jump } := by
  simp [jumpPlayerStart, startJump, initState, initPlayer]

theorem physStepPlayer_y_eq (p : Player) :
    (physStepPlayer p).y =
      if PLAYER_BASE_Y < p.y + (p.dy + GRAVITY) then PLAYER_BASE_Y
      else p.y + (p.dy + GRAVITY) := by
  simp only [physStepPlayer]
  split
  · split <;> rfl
  · rfl

theorem physStepPlayer_dy_eq (p : Player) :
    (physStepPlayer p).dy =
      if PLAYER_BASE_Y < p.y + (p.dy + GRAVITY) then 0
      else p.dy + GRAVITY := by
  simp only [physStepPlayer]
  split
  · split <;> rfl
  · rfl

theorem minY_spec_le (N : ℕ) : ∀ (p : Player) (j : ℕ), j ≤ N →
    minY N p ≤ (physStepPlayer^[j] p).y := by
  induction N with
  | zero =>
    intro p j hj
    interval_cases j
    simp [minY]
  | succ N ih =>
    intro p j hj
    cases j with
    | zero => simp [minY]
    | succ j =>
      rw [Function.iterate_succ_apply]
      calc minY (N+1) p ≤ minY N (physStepPlayer p) := min_le_right _ _
      _ ≤ _ := ih _ j (by omega)

theorem minY_le_head (N : ℕ) (p : Player) : minY N p ≤ p.y := by
  have := minY_spec_le N p 0 (Nat.zero_le N)
  simpa using this

theorem minY_attained (N : ℕ) : ∀ p : Player,
    ∃ m, m ≤ N ∧ minY N p = (physStepPlayer^[m] p).y := by
  induction N with
  | zero => intro p; exact ⟨0, le_refl 0, by simp [minY]⟩
  | succ N ih =>
    intro p
    rcases le_total p.y (minY N (physStepPlayer p)) with h | h
    · exact ⟨0, Nat.zero_le _, by simp [minY, min_eq_left h]⟩
    · obtain ⟨m, hm, hval⟩ := ih (physStepPlayer p)
      exact ⟨m + 1, by omega, by
        rw [Function.iterate_succ_apply]
        simpa [minY, min_eq_right h] using hval⟩

theorem minY_add (a b : ℕ) : ∀ p : Player,
    minY (a + b) p = min (minY a p) (minY b (physStepPlayer^[a] p)) := by
  induction a with
  | zero =>
    intro p
    rw [Nat.zero_add]
    have h := minY_le_head b p
    simp [minY, min_eq_right h]
  | succ a ih =>
    intro p
    have hstep : a + 1 + b = (a + b) + 1 := by omega
    rw [hstep]
    show min p.y (minY (a+b) (physStepPlayer p)) = _
    rw [ih (physStepPlayer p), ← min_assoc]
    rw [Function.iterate_succ_apply]
    rfl

/-- One step of the "released trajectory dominates" invariant: either the
released body is exactly `d` higher (in velocity terms synchronised), or it
has already landed and stays on the ground. -/
theorem damped_above_step (d : ℚ) (hd : 0 ≤ d) (pA pB : Player)
    (h : (pB.y + d ≤ pA.y ∧ pA.dy = pB.dy + d) ∨
         (pA.y = PLAYER_BASE_Y ∧ 0 ≤ pA.dy)) :
    ((physStepPlayer pB).y + d ≤ (physStepPlayer pA).y ∧
      (physStepPlayer pA).dy = (physStepPlayer pB).dy + d) ∨
    ((physStepPlayer pA).y = PLAYER_BASE_Y ∧ 0 ≤ (physStepPlayer pA).dy) := by
  have hg : (0:ℚ) < GRAVITY := by norm_num [GRAVITY]
  rcases h with ⟨hy, hdy⟩ | ⟨hy, hdy⟩
  · by_cases hA : PLAYER_BASE_Y < pA.y + (pA.dy + GRAVITY)
    · right
      simp only [physStepPlayer_y_eq, physStepPlayer_dy_eq, if_pos hA]
      exact ⟨trivial, le_refl 0⟩
    · left
      have hB : ¬ PLAYER_BASE_Y < pB.y + (pB.dy + GRAVITY) := by
        intro hB'
        exact hA (by linarith)
      simp only [physStepPlayer_y_eq, physStepPlayer_dy_eq, if_neg hA, if_neg hB]
      constructor
      · linarith
      · rw [hdy]; ring
  · right
    have hA : PLAYER_BASE_Y < pA.y + (pA.dy + GRAVITY) := by
      rw [hy]; linarith
    simp only [physStepPlayer_y_eq, physStepPlayer_dy_eq, if_pos hA]
    exact ⟨trivial, le_refl 0⟩

/-- The invariant of `damped_above_step` propagated along the trajectory. -/
theorem damped_above (d : ℚ) (hd : 0 ≤ d) : ∀ (n : ℕ) (pA pB : Player),
    ((pB.y + d ≤ pA.y ∧ pA.dy = pB.dy + d) ∨
      (pA.y = PLAYER_BASE_Y ∧ 0 ≤ pA.dy)) →
    (((physStepPlayer^[n] pB).y + d ≤ (physStepPlayer^[n] pA).y ∧
       (physStepPlayer^[n] pA).dy = (physStepPlayer^[n] pB).dy + d) ∨
     ((physStepPlayer^[n] pA).y = PLAYER_BASE_Y ∧ 0 ≤ (physStepPlayer^[n] pA).dy)) := by
  intro n
  induction n with
  | zero => intro pA pB h; simpa using h
  | succ n ih =>
    intro pA pB h
    rw [Function.iterate_succ_apply, Function.iterate_succ_apply]
    exact ih _ _ (damped_above_step d hd pA pB h)

theorem endJumpPlayer_pos (p : Player) (hj : p.isJumping = true) (hdy : p.dy < -2) :
    endJumpPlayer p = { p with dy := p.dy * (45/100) } := by
  simp [endJumpPlayer, hj, hdy]

/-- Damping the upward velocity while ascending strictly raises the
minimum height of the remaining arc (its peak gets strictly lower). -/
theorem minY_damped_suffix (pB : Player) (N : ℕ) (hN : 1 ≤ N)
    (hy388 : pB.y ≤ PLAYER_BASE_Y) (hdy : pB.dy < -2) (hj : pB.isJumping = true) :
    minY N pB < minY N (endJumpPlayer pB) := by
  have hgrav : GRAVITY = 8/10 := rfl
  have hpAeq : endJumpPlayer pB = { pB with dy := pB.dy * (45/100) } :=
    endJumpPlayer_pos pB hj hdy
  set pA := endJumpPlayer pB with hpA
  have hAy : pA.y = pB.y := by rw [hpAeq]
  have hAdy : pA.dy = pB.dy * (45/100) := by rw [hpAeq]
  have hd : 0 < pA.dy - pB.dy := by rw [hAdy]; linarith
  have hBfree : ¬ PLAYER_BASE_Y < pB.y + (pB.dy + GRAVITY) := by
    rw [not_lt, hgrav]; linarith
  have hAfree : ¬ PLAYER_BASE_Y < pA.y + (pA.dy + GRAVITY) := by
    rw [not_lt, hgrav, hAy, hAdy]; linarith
  have hB1y : (physStepPlayer pB).y = pB.y + (pB.dy + GRAVITY) := by
    rw [physStepPlayer_y_eq, if_neg hBfree]
  have hB1dy : (physStepPlayer pB).dy = pB.dy + GRAVITY := by
    rw [physStepPlayer_dy_eq, if_neg hBfree]
  have hA1y : (physStepPlayer pA).y = pA.y + (pA.dy + GRAVITY) := by
    rw [physStepPlayer_y_eq, if_neg hAfree]
  have hA1dy : (physStepPlayer pA).dy = pA.dy + GRAVITY := by
    rw [physStepPlayer_dy_eq, if_neg hAfree]
  have hbase : (physStepPlayer pB).y + (pA.dy - pB.dy) ≤ (physStepPlayer pA).y ∧
      (physStepPlayer pA).dy = (physStepPlayer pB).dy + (pA.dy - pB.dy) := by
    constructor
    · rw [hB1y, hA1y, hAy]; ring_nf; linarith
    · rw [hB1dy, hA1dy]; ring
  have hB1lt : (physStepPlayer pB).y < pB.y := by
    rw [hB1y, hgrav]; linarith
  have hminBle : minY N pB ≤ (physStepPlayer pB).y := by
    have := minY_spec_le N pB 1 hN
    simpa using this
  obtain ⟨m, hm, hminA⟩ := minY_attained N pA
  cases m with
  | zero =>
    rw [Function.iterate_zero_apply] at hminA
    rw [hminA, hAy]
    linarith
  | succ m =>
    have hinv := damped_above (pA.dy - pB.dy) (le_of_lt hd) m
      (physStepPlayer pA) (physStepPlayer pB) (Or.inl hbase)
    have hiterA : physStepPlayer^[m] (physStepPlayer pA) = physStepPlayer^[m+1] pA :=
      (Function.iterate_succ_apply physStepPlayer m pA).symm
    have hiterB : physStepPlayer^[m] (physStepPlayer pB) = physStepPlayer^[m+1] pB :=
      (Function.iterate_succ_apply physStepPlayer m pB).symm
    rw [hiterA, hiterB] at hinv
    have hminBleM : minY N pB ≤ (physStepPlayer^[m+1] pB).y := minY_spec_le N pB (m+1) hm
    rcases hinv with ⟨hge, _⟩ | ⟨hclamp, _⟩
    · rw [hminA]
      linarith
    · have hle : minY N pA ≤ pB.y := by
        have := minY_le_head N pA
        rw [hAy] at this
        exact this
      rw [hminA] at hle ⊢
      rw [hclamp] at hle ⊢
      linarith

/-- The physics step reports `isJumping` only if it was already jumping and
the step stayed in free flight. -/
theorem physStep_isJumping_rev (p : Player) (h : (physStepPlayer p).isJumping = true) :
    p.isJumping = true ∧ ¬ PLAYER_BASE_Y < p.y + (p.dy + GRAVITY) := by
  simp only [physStepPlayer] at h
  split at h
  · split at h
    · exact absurd h (by simp)
    · next hj => exact absurd h hj
  · next hgt => exact ⟨h, hgt⟩

/-- If the body is still airborne after `n` steps, every earlier step was a
free-flight step. -/
theorem free_before : ∀ (n : ℕ) (p : Player),
    (physStepPlayer^[n] p).isJumping = true →
    ∀ j, j < n →
      (physStepPlayer^[j] p).isJumping = true ∧
      ¬ PLAYER_BASE_Y <
        (physStepPlayer^[j] p).y + ((physStepPlayer^[j] p).dy + GRAVITY) := by
  intro n
  induction n with
  | zero => intro p _ j hj; omega
  | succ n ih =>
    intro p hj j hjn
    rw [Function.iterate_succ_apply'] at hj
    have hrev := physStep_isJumping_rev _ hj
    rcases Nat.lt_succ_iff_lt_or_eq.mp hjn with h | h
    · exact ih p hrev.1 j h
    · subst h; exact hrev

theorem free_step_eqs (n : ℕ) (p : Player)
    (hj : (physStepPlayer^[n] p).isJumping = true) (j : ℕ) (hjn : j < n) :
    (physStepPlayer^[j+1] p).dy = (physStepPlayer^[j] p).dy + GRAVITY ∧
    (physStepPlayer^[j+1] p).y =
      (physStepPlayer^[j] p).y + ((physStepPlayer^[j] p).dy + GRAVITY) := by
  have hfree := (free_before n p hj j hjn).2
  rw [Function.iterate_succ_apply', physStepPlayer_free _ hfree]
  exact ⟨rfl, rfl⟩

theorem free_dy_mono (n : ℕ) (p : Player)
    (hj : (physStepPlayer^[n] p).isJumping = true) :
    ∀ j, j ≤ n → (physStepPlayer^[j] p).dy ≤ (physStepPlayer^[n] p).dy := by
  have hstep : ∀ m, m < n →
      (physStepPlayer^[m] p).dy ≤ (physStepPlayer^[m+1] p).dy := by
    intro m hm
    rw [(free_step_eqs n p hj m hm).1]
    norm_num [GRAVITY]
  intro j hjn
  have main : ∀ m, j ≤ m → m ≤ n →
      (physStepPlayer^[j] p).dy ≤ (physStepPlayer^[m] p).dy := by
    intro m hjm
    induction m, hjm using Nat.le_induction with
    | base => intro _; exact le_refl _
    | succ m hjm ihm =>
      intro hmn
      exact le_trans (ihm (by omega)) (hstep m (by omega))
  exact main n hjn (le_refl n)

theorem minY_of_descending : ∀ (k : ℕ) (p : Player),
    (∀ j, j < k → (physStepPlayer^[j+1] p).y ≤ (physStepPlayer^[j] p).y) →
    minY k p = (physStepPlayer^[k] p).y := by
  intro k
  induction k with
  | zero => intro p _; simp [minY]
  | succ k ih =>
    intro p hdesc
    have hchain : ∀ m, m ≤ k + 1 → (physStepPlayer^[m] p).y ≤ p.y := by
      intro m
      induction m with
      | zero => intro _; simp
      | succ m ihm =>
        intro hm
        calc (physStepPlayer^[m+1] p).y ≤ (physStepPlayer^[m] p).y :=
              hdesc m (by omega)
        _ ≤ p.y := ihm (by omega)
    have hshift : ∀ j, j < k →
        (physStepPlayer^[j+1] (physStepPlayer p)).y ≤
          (physStepPlayer^[j] (physStepPlayer p)).y := by
      intro j hj
      have := hdesc (j+1) (by omega)
      rw [Function.iterate_succ_apply, Function.iterate_succ_apply] at this
      exact this
    show min p.y (minY k (physStepPlayer p)) = _
    rw [ih _ hshift, ← Function.iterate_succ_apply]
    exact min_eq_right (hchain (k+1) (le_refl _))

theorem held_descending (k : ℕ)
    (hj : (physStepPlayer^[k] jumpPlayerStart).isJumping = true)
    (hdy : (physStepPlayer^[k] jumpPlayerStart).dy < -2) :
    ∀ j, j < k → (physStepPlayer^[j+1] jumpPlayerStart).y ≤
      (physStepPlayer^[j] jumpPlayerStart).y := by
  intro j hjk
  have heq := free_step_eqs k jumpPlayerStart hj j hjk
  have hmono := free_dy_mono k jumpPlayerStart hj (j+1) (by omega)
  rw [heq.2]
  have hback := heq.1
  linarith [hmono, hdy, hback]

theorem heldAt_y_le (k : ℕ) : (physStepPlayer^[k] jumpPlayerStart).y ≤ PLAYER_BASE_Y := by
  cases k with
  | zero =>
    rw [Function.iterate_zero_apply, jumpPlayerStart_eq]
    exact le_refl _
  | succ k =>
    rw [Function.iterate_succ_apply']
    exact physStepPlayer_y_le _

/-! ### C8 -/

/-- C8: for the jump started from the ground with the fixed gravity and
jump strength, releasing the jump input at any tick `k` at which the player
is still ascending (`isJumping` and `dy < -2`) yields a strictly larger
minimum `y` — a strictly lower peak — than holding the jump for the whole
arc, over any horizon of at least one further tick. -/
theorem c8_variable_jump_height (k N : ℕ) (hN : 1 ≤ N)
    (hj : (physStepPlayer^[k] jumpPlayerStart).isJumping = true)
    (hdy : (physStepPlayer^[k] jumpPlayerStart).dy < -2) :
    minY (k + N) jumpPlayerStart < relMinY k N := by
  have hdesc := held_descending k hj hdy
  have hpre : minY k jumpPlayerStart = (physStepPlayer^[k] jumpPlayerStart).y :=
    minY_of_descending k _ hdesc
  have hsuffix := minY_damped_suffix (physStepPlayer^[k] jumpPlayerStart) N hN
    (heldAt_y_le k) hdy hj
  have hy : (endJumpPlayer (physStepPlayer^[k] jumpPlayerStart)).y =
      (physStepPlayer^[k] jumpPlayerStart).y := by
    rw [endJumpPlayer_pos _ hj hdy]
  rw [minY_add k N, hpre, min_eq_right (minY_le_head N _)]
  unfold relMinY
  rw [hpre, min_eq_right (le_trans (minY_le_head N _) (le_of_eq hy))]
  exact hsuffix

/-- Witness for C8: releasing immediately after the jump starts
(`k = 0`, where `dy = -15 < -2`) strictly lowers the peak. -/
theorem c8_variable_jump_height_witness :
    minY (0 + 40) jumpPlayerStart < relMinY 0 40 := by
  apply c8_variable_jump_height 0 40 (by omega)
  · rw [Function.iterate_zero_apply, jumpPlayerStart_eq]
  · rw [Function.iterate_zero_apply, jumpPlayerStart_eq]
    norm_num [JUMP_STRENGTH]

/-! ### Spawn-gap machinery for C2 -/

theorem threshold_ge_steps (l : List UpdateIn) : ∀ s : GameState,
    SPAWN_BASE_MIN ≤ s.nextSpawnThreshold → (∀ i ∈ l, 0 ≤ i.r2) →
    SPAWN_BASE_MIN ≤ (steps s l).nextSpawnThreshold := by
  induction l with
  | nil => intro s h _; exact h
  | cons i l ih =>
    intro s h hr
    rw [steps_cons]
    refine ih _ ?_ (fun j hj => hr j (by simp [hj]))
    by_cases hp : s.isPlaying
    · rw [update_nextSpawnThreshold_playing _ _ hp]
      split
      · have : 0 ≤ i.r2 * SPAWN_BASE_VAR :=
          mul_nonneg (hr i (by simp)) (by norm_num [SPAWN_BASE_VAR])
        linarith
      · exact h
    · simp only [Bool.not_eq_true] at hp
      rw [update_dead_nextSpawnThreshold _ _ hp]
      exact h

/-- Between a spawn and the next one, the frame counter counts exactly the
elapsed playing ticks. -/
theorem frameCount_since_spawn (t0 : ℚ) (l : List UpdateIn) (c : ℕ) : ∀ d : ℕ,
    c + 1 + d ≤ l.length →
    (stateAfter t0 l (c+1)).frameCount = 0 →
    (∀ i, c < i → i < c + 1 + d → ¬ spawnsAt (stateAfter t0 l i)) →
    (∀ i, c < i → i < c + 1 + d → (stateAfter t0 l i).isPlaying = true) →
    (stateAfter t0 l (c + 1 + d)).frameCount = d := by
  intro d
  induction d with
  | zero => intro _ h0 _ _; simpa using h0
  | succ d ih =>
    intro hlen h0 hns hp
    have hprev : (stateAfter t0 l (c+1+d)).frameCount = d :=
      ih (by omega) h0 (fun i h1 h2 => hns i h1 (by omega))
        (fun i h1 h2 => hp i h1 (by omega))
    have hplay : (stateAfter t0 l (c+1+d)).isPlaying = true := hp _ (by omega) (by omega)
    have hnsp : ¬ spawnsAt (stateAfter t0 l (c+1+d)) := hns _ (by omega) (by omega)
    have hstep : c + 1 + (d+1) = (c + 1 + d) + 1 := by omega
    rw [hstep]
    unfold stateAfter at hprev hplay hnsp ⊢
    rw [steps_take_succ l _ (c+1+d) (by omega), update_frameCount_playing _ _ hplay,
      if_neg hnsp, hprev]

/-- Closed form of the held jump arc while it is airborne (`j ≤ 36`). -/
theorem held_traj_formula : ∀ j : ℕ, j ≤ 36 →
    (physStepPlayer^[j] jumpPlayerStart).y =
      PLAYER_BASE_Y + j * ((4/10) * j - (146/10)) ∧
    (physStepPlayer^[j] jumpPlayerStart).dy = JUMP_STRENGTH + (8/10) * j ∧
    (physStepPlayer^[j] jumpPlayerStart).isJumping = true := by
  intro j
  induction j with
  | zero =>
    intro _
    rw [Function.iterate_zero_apply, jumpPlayerStart_eq]
    refine ⟨by norm_num [initPlayer], by norm_num [initPlayer, JUMP_STRENGTH], rfl⟩
  | succ j ih =>
    intro hj
    obtain ⟨hy, hdy, hjump⟩ := ih (by omega)
    have hcast : (j:ℚ) ≤ 35 := by exact_mod_cast (by omega : j ≤ 35)
    have hcast0 : (0:ℚ) ≤ (j:ℚ) := by positivity
    have hfree : ¬ PLAYER_BASE_Y < (physStepPlayer^[j] jumpPlayerStart).y +
        ((physStepPlayer^[j] jumpPlayerStart).dy + GRAVITY) := by
      rw [not_lt, hy, hdy]
      have : ((j:ℚ) + 1) * ((4/10) * ((j:ℚ) + 1) - 146/10) ≤ 0 := by
        apply mul_nonpos_of_nonneg_of_nonpos (by linarith)
        linarith
      norm_num [JUMP_STRENGTH, GRAVITY]
      nlinarith [this]
    rw [Function.iterate_succ_apply', physStepPlayer_free _ hfree]
    refine ⟨?_, ?_, hjump⟩
    · show (physStepPlayer^[j] jumpPlayerStart).y +
        ((physStepPlayer^[j] jumpPlayerStart).dy + GRAVITY) = _
      rw [hy, hdy]
      push_cast
      norm_num [JUMP_STRENGTH, GRAVITY]
      ring
    · show (physStepPlayer^[j] jumpPlayerStart).dy + GRAVITY = _
      rw [hdy]
      push_cast
      norm_num [JUMP_STRENGTH, GRAVITY]
      ring

/-- The held jump lands exactly on tick 37: the clamp fires, the jump flag
clears, and the feet return to the ground line. -/
theorem held_lands :
    (physStepPlayer^[37] jumpPlayerStart).isJumping = false ∧
    (physStepPlayer^[37] jumpPlayerStart).y = PLAYER_BASE_Y := by
  obtain ⟨hy, hdy, _⟩ := held_traj_formula 36 (le_refl _)
  have hclamp : PLAYER_BASE_Y < (physStepPlayer^[36] jumpPlayerStart).y +
      ((physStepPlayer^[36] jumpPlayerStart).dy + GRAVITY) := by
    rw [hy, hdy]
    norm_num [JUMP_STRENGTH, GRAVITY]
    linarith
  have hres := physStepPlayer_clamp _ hclamp
  rw [show (37:ℕ) = 36 + 1 from rfl, Function.iterate_succ_apply']
  exact ⟨hres.2.2.1, hres.1⟩

/-! ### C2 -/

/-- C2: under any random draws, (i) two consecutive spawn ticks are at
least `SPAWN_BASE_MIN + 1` ticks apart, (ii) the spawn threshold never
drops below `SPAWN_BASE_MIN`, (iii) the threshold is resampled as
`SPAWN_BASE_MIN + r·SPAWN_BASE_VAR` after every spawn, and (iv) the full
jump arc at the configured gravity and jump strength completes in 37 ticks,
no more than the `SPAWN_BASE_MIN` floor — so the gap always leaves room for
a full jump. -/
theorem c2_spawn_gap (t0 : ℚ) (l : List UpdateIn) (hr : RandOK l) :
    (∀ c j : ℕ, c < j → j < l.length →
      spawnsAt (stateAfter t0 l c) → spawnsAt (stateAfter t0 l j) →
      (∀ i, c < i → i < j → ¬ spawnsAt (stateAfter t0 l i)) →
      SPAWN_BASE_MIN + 1 ≤ ((j - c : ℕ) : ℚ)) ∧
    (∀ k : ℕ, SPAWN_BASE_MIN ≤ (stateAfter t0 l k).nextSpawnThreshold) ∧
    (∀ j : ℕ, j < l.length → spawnsAt (stateAfter t0 l j) →
      (stateAfter t0 l (j+1)).nextSpawnThreshold =
        SPAWN_BASE_MIN + (l.getD j default).r2 * SPAWN_BASE_VAR) ∧
    ((physStepPlayer^[37] jumpPlayerStart).isJumping = false ∧
     (physStepPlayer^[37] jumpPlayerStart).y = PLAYER_BASE_Y ∧
     (∀ k : ℕ, k < 37 → (physStepPlayer^[k] jumpPlayerStart).isJumping = true) ∧
     (37 : ℚ) ≤ SPAWN_BASE_MIN) := by
  have hr2 : ∀ i ∈ l, 0 ≤ i.r2 := fun i hi => (hr i hi).2.2.1
  have hthr : ∀ k : ℕ, SPAWN_BASE_MIN ≤ (stateAfter t0 l k).nextSpawnThreshold := by
    intro k
    exact threshold_ge_steps (l.take k) (initState t0) (le_refl _)
      (fun i hi => hr2 i (List.take_subset k l hi))
  refine ⟨?_, hthr, ?_, ?_⟩
  · intro c j hcj hjlen hc hj hns
    have hplay : ∀ i, i ≤ j → (stateAfter t0 l i).isPlaying = true := by
      intro i hij
      by_contra hcon
      simp only [Bool.not_eq_true] at hcon
      have habs := stateAfter_playing_mono t0 l i j hij hcon
      rw [hj.1] at habs
      cases habs
    have h0 : (stateAfter t0 l (c+1)).frameCount = 0 := by
      have hcu := hc
      unfold stateAfter at hcu ⊢
      rw [steps_take_succ l _ c (by omega), update_frameCount_playing _ _ hcu.1,
        if_pos hcu]
    have hcnt := frameCount_since_spawn t0 l c (j - c - 1) (by omega) h0
      (fun i h1 h2 => hns i h1 (by omega)) (fun i h1 h2 => hplay i (by omega))
    rw [show c + 1 + (j - c - 1) = j from by omega] at hcnt
    have hlt : (stateAfter t0 l j).nextSpawnThreshold <
        ((stateAfter t0 l j).frameCount : ℚ) + 1 := hj.2
    rw [hcnt] at hlt
    have h70 : (70:ℚ) < ((j - c - 1 : ℕ) : ℚ) + 1 := by
      calc (70:ℚ) = SPAWN_BASE_MIN := by norm_num [SPAWN_BASE_MIN]
      _ ≤ (stateAfter t0 l j).nextSpawnThreshold := hthr j
      _ < _ := hlt
    have h70n : 70 < (j - c - 1) + 1 := by exact_mod_cast h70
    have hge : 71 ≤ j - c := by omega
    have : ((71:ℕ) : ℚ) ≤ ((j - c : ℕ) : ℚ) := by exact_mod_cast hge
    calc SPAWN_BASE_MIN + 1 = ((71:ℕ) : ℚ) := by norm_num [SPAWN_BASE_MIN]
    _ ≤ _ := this
  · intro j hjlen hj
    have hju := hj
    unfold stateAfter at hju ⊢
    rw [steps_take_succ l _ j hjlen, update_nextSpawnThreshold_playing _ _ hju.1,
      if_pos hju]
  · refine ⟨held_lands.1, held_lands.2, ?_, by norm_num [SPAWN_BASE_MIN]⟩
    intro k hk
    exact (held_traj_formula k (by omega)).2.2

/-- Witness for C2 at a one-tick match with legal draws. -/
theorem c2_spawn_gap_witness :
    SPAWN_BASE_MIN ≤ (stateAfter 1 [⟨17, 0, 0⟩] 0).nextSpawnThreshold := by
  have hr : RandOK [⟨17, 0, 0⟩] := by
    intro i hi
    simp only [List.mem_singleton] at hi
    subst hi
    norm_num
  exact (c2_spawn_gap 1 [⟨17, 0, 0⟩] hr).2.1 0

/-! ### Score machinery for C3 -/

theorem take_decomp (l : List UpdateIn) (k m : ℕ) (h : k ≤ m) :
    l.take m = l.take k ++ ((l.take m).drop k) := by
  conv_lhs => rw [← List.take_append_drop k (l.take m)]
  rw [List.take_take, min_eq_left h]

theorem timeMono_steps_suffix : ∀ (a b : List UpdateIn) (s : GameState),
    TimeMono s.lastTime (a ++ b) → TimeMono (steps s a).lastTime b := by
  intro a
  induction a with
  | nil => intro b s h; simpa using h
  | cons i a ih =>
    intro b s h
    rw [List.cons_append, timeMono_cons] at h
    rw [steps_cons]
    refine ih b (update s i).1 ?_
    rw [update_lastTime]
    exact h.2

theorem lastTime_pos_steps (l : List UpdateIn) : ∀ s : GameState,
    0 < s.lastTime → TimeMono s.lastTime l → 0 < (steps s l).lastTime := by
  induction l with
  | nil => intro s h _; exact h
  | cons i l ih =>
    intro s h hm
    rw [timeMono_cons] at hm
    rw [steps_cons]
    refine ih _ ?_ ?_
    · rw [update_lastTime]; exact lt_of_lt_of_le h hm.1
    · rw [update_lastTime]; exact hm.2

theorem score_frozen_steps (l : List UpdateIn) : ∀ s : GameState, s.isPlaying = false →
    (steps s l).score = s.score := by
  induction l with
  | nil => intro s _; rfl
  | cons i l ih =>
    intro s h
    rw [steps_cons, ih _ (update_isPlaying_dead s i h), update_score,
      if_neg (by simp [h])]

theorem score_mono_steps (l : List UpdateIn) : ∀ s : GameState,
    0 ≤ s.speed → 0 < s.lastTime → TimeMono s.lastTime l →
    s.score ≤ (steps s l).score := by
  induction l with
  | nil => intro s _ _ _; exact le_refl _
  | cons i l ih =>
    intro s hsp hlt hm
    rw [timeMono_cons] at hm
    rw [steps_cons]
    have hdt : 0 ≤ dtOf s i.time := dtOf_nonneg s i.time hlt hm.1
    have hone : s.score ≤ (update s i).1.score := by
      rw [update_score]
      split
      · have hterm : 0 ≤ (8/100:ℚ) * (s.speed / INITIAL_SPEED) * (dtOf s i.time / (1667/100)) :=
          mul_nonneg
            (mul_nonneg (by norm_num)
              (div_nonneg hsp (by norm_num [INITIAL_SPEED])))
            (div_nonneg hdt (by norm_num))
        linarith
      · exact le_refl _
    refine le_trans hone (ih _ ?_ ?_ ?_)
    · rw [update_speed]
      split
      · refine le_min (by norm_num [MAX_SPEED]) ?_
        have : (0:ℚ) ≤ ACCELERATION := by norm_num [ACCELERATION]
        linarith
      · exact hsp
    · rw [update_lastTime]; exact lt_of_lt_of_le hlt hm.1
    · rw [update_lastTime]; exact hm.2

/-! ### C3 -/

/-- C3: with monotone frame timestamps, the score never decreases from tick
to tick over the whole match; and from any tick at which the match is no
longer live (the first collision onward), the score is frozen bit-for-bit
and the match never becomes live again. -/
theorem c3_score_monotone_frozen (t0 : ℚ) (l : List UpdateIn) (h0 : 0 < t0)
    (hm : TimeMono t0 l) :
    (∀ k m : ℕ, k ≤ m → (stateAfter t0 l k).score ≤ (stateAfter t0 l m).score) ∧
    (∀ k m : ℕ, k ≤ m → (stateAfter t0 l k).isPlaying = false →
      (stateAfter t0 l m).score = (stateAfter t0 l k).score ∧
      (stateAfter t0 l m).isPlaying = false) := by
  have hmono_take : ∀ k, TimeMono t0 (l.take k) := fun k => timeMono_take t0 l k hm
  have hlast : ∀ k, 0 < (stateAfter t0 l k).lastTime := fun k =>
    lastTime_pos_steps (l.take k) (initState t0) h0 (hmono_take k)
  have hspeed : ∀ k, 0 ≤ (stateAfter t0 l k).speed := by
    intro k
    have h5 : (initState t0).speed ≤ (stateAfter t0 l k).speed :=
      (speed_le_steps (l.take k) (initState t0)
        (by norm_num [initState, INITIAL_SPEED, MAX_SPEED])).1
    have : (5:ℚ) ≤ (stateAfter t0 l k).speed := h5
    linarith
  have hsuffix : ∀ k m : ℕ, k ≤ m →
      TimeMono (stateAfter t0 l k).lastTime ((l.take m).drop k) := by
    intro k m hkm
    refine timeMono_steps_suffix (l.take k) ((l.take m).drop k) (initState t0) ?_
    have hdec := take_decomp l k m hkm
    show TimeMono t0 (l.take k ++ (l.take m).drop k)
    rw [← hdec]
    exact hmono_take m
  constructor
  · intro k m hkm
    rw [stateAfter_add t0 l k m hkm]
    exact score_mono_steps _ _ (hspeed k) (hlast k) (hsuffix k m hkm)
  · intro k m hkm hdead
    refine ⟨?_, stateAfter_playing_mono t0 l k m hkm hdead⟩
    rw [stateAfter_add t0 l k m hkm]
    exact score_frozen_steps _ _ hdead

/-- Witness for C3 over a concrete two-tick match. -/
theorem c3_score_monotone_frozen_witness :
    (stateAfter 1 [⟨17, 0, 0⟩, ⟨33, 0, 0⟩] 0).score ≤
      (stateAfter 1 [⟨17, 0, 0⟩, ⟨33, 0, 0⟩] 2).score := by
  refine (c3_score_monotone_frozen 1 [⟨17, 0, 0⟩, ⟨33, 0, 0⟩] (by norm_num) ?_).1
    0 2 (by omega)
  show List.Chain' (· ≤ ·) [(1:ℚ), 17, 33]
  norm_num

/-! ### C10 -/

theorem physStepPlayer_run (p : Player) (h : p.animState = .run) :
    (physStepPlayer p).animState = .run := by
  simp only [physStepPlayer]
  split
  · split <;> simp [h]
  · simpa using h

theorem runAnimStep_zero_dt (p : Player) (h : p.animState = .run)
    (h120 : p.runAnimTimer ≤ 120) : runAnimStep p 0 = p := by
  simp only [runAnimStep, h, if_pos, add_zero]
  rw [if_neg (not_lt.mpr h120), ← h]

theorem runAnimStep_zero_le (p : Player) (h0 : 0 ≤ p.runAnimTimer) :
    (runAnimStep p 0).runAnimTimer ≤ p.runAnimTimer := by
  simp only [runAnimStep]
  split
  · rw [add_zero]
    split
    · exact h0
    · exact le_refl _
  · exact h0

/-- C10: on a tick where no previous timestamp is recorded (`lastTimeRef`
still 0), the computed delta time is 0 — so that tick advances the score by
zero, the game-over countdown by zero, and the run-animation accumulator by
zero (exactly unchanged in the normal running configuration, and never
increased), instead of advancing them by the raw timestamp. -/
theorem c10_zero_lastTime_dt (s : GameState) (i : UpdateIn) (h : s.lastTime = 0) :
    dtOf s i.time = 0 ∧
    (update s i).1.score = s.score ∧
    ((update s i).1.isPlaying = s.isPlaying →
      (update s i).1.gameOverTimerMs = s.gameOverTimerMs) ∧
    (s.player.animState = .run → s.player.runAnimTimer ≤ 120 →
      (update s i).1.player.runAnimTimer = s.player.runAnimTimer ∧
      (update s i).1.player.runFrame = s.player.runFrame) ∧
    (0 ≤ s.player.runAnimTimer →
      (update s i).1.player.runAnimTimer ≤ s.player.runAnimTimer) := by
  have hdt : dtOf s i.time = 0 := dtOf_zero_lastTime s i.time h
  refine ⟨hdt, ?_, ?_, ?_, ?_⟩
  · rw [update_score, hdt]
    split <;> simp
  · intro heq
    by_cases hp : s.isPlaying
    · have hpost : (update s i).1.isPlaying = true := by rw [heq]; exact hp
      exact (update_no_collision s i hp hpost).1
    · simp only [Bool.not_eq_true] at hp
      rw [update_dead_state _ _ hp]
      show (if s.hasGameOverSent = true then s.gameOverTimerMs
        else s.gameOverTimerMs - dtOf s i.time) = s.gameOverTimerMs
      rw [hdt]
      split <;> ring
  · intro hrun h120
    by_cases hp : s.isPlaying
    · have hanim := physStepPlayer_run s.player hrun
      have hzero := runAnimStep_zero_dt (physStepPlayer s.player) hanim
        (by rw [physStepPlayer_runAnimTimer]; exact h120)
      rw [update_playing_player_runAnimTimer _ _ hp, update_playing_player_runFrame _ _ hp,
        hdt, hzero, physStepPlayer_runAnimTimer, physStepPlayer_runFrame]
      exact ⟨rfl, rfl⟩
    · simp only [Bool.not_eq_true] at hp
      rw [update_dead_player _ _ hp]
      exact ⟨rfl, rfl⟩
  · intro h0
    by_cases hp : s.isPlaying
    · rw [update_playing_player_runAnimTimer _ _ hp, hdt]
      calc (runAnimStep (physStepPlayer s.player) 0).runAnimTimer
          ≤ (physStepPlayer s.player).runAnimTimer :=
            runAnimStep_zero_le _ (by rw [physStepPlayer_runAnimTimer]; exact h0)
      _ = s.player.runAnimTimer := physStepPlayer_runAnimTimer _
    · simp only [Bool.not_eq_true] at hp
      rw [update_dead_player _ _ hp]

/-- Witness for C10: a fresh state with no recorded timestamp fed a huge
raw timestamp leaves the score untouched. -/
theorem c10_zero_lastTime_dt_witness :
    dtOf (initState 0) 5000 = 0 ∧
    (update (initState 0) ⟨5000, 0, 0⟩).1.score = (initState 0).score := by
  have h := c10_zero_lastTime_dt (initState 0) ⟨5000, 0, 0⟩ rfl
  exact ⟨h.1, h.2.1⟩

/-! ### C9 -/

theorem jsRem_nonneg_lt (a b : ℚ) (hb : 0 < b) (ha : 0 ≤ a) :
    0 ≤ jsRem a b ∧ jsRem a b < b := by
  unfold jsRem
  rw [if_pos (div_nonneg ha (le_of_lt hb))]
  have hmul : b * (a / b) = a := by field_simp
  constructor
  · have h1 : ((⌊a / b⌋ : ℤ) : ℚ) ≤ a / b := Int.floor_le _
    nlinarith
  · have h2 : a / b < ((⌊a / b⌋ : ℤ) : ℚ) + 1 := Int.lt_floor_add_one _
    nlinarith

theorem jsRem_neg (a b : ℚ) (hb : 0 < b) (ha : a < 0) :
    -b < jsRem a b ∧ jsRem a b ≤ 0 := by
  unfold jsRem
  rw [if_neg (not_le.mpr (div_neg_of_neg_of_pos ha hb))]
  have hmul : b * (a / b) = a := by field_simp
  have h1 : ((⌈a / b⌉ : ℤ) : ℚ) < a / b + 1 := Int.ceil_lt_add_one _
  have h2 : a / b ≤ ((⌈a / b⌉ : ℤ) : ℚ) := Int.le_ceil _
  constructor
  · nlinarith
  · nlinarith

/-- The draw-time wrapped offset always lies in `[0, tileWidth)`. -/
theorem wrapOffset_mem (o w : ℚ) (hw : 0 < w) :
    0 ≤ wrapOffset o w ∧ wrapOffset o w < w := by
  unfold wrapOffset
  rcases lt_or_le o 0 with ho | ho
  · have h1 := jsRem_neg o w hw ho
    exact jsRem_nonneg_lt _ w hw (by linarith [h1.1])
  · have h1 := jsRem_nonneg_lt o w hw ho
    exact jsRem_nonneg_lt _ w hw (by linarith [h1.1])

/-- C9 (amended): each playing tick advances the three stored scroll
offsets by the speed-proportional fractions 0.3, 0.6 and 1 (distant layers
slower than near layers); the stored offsets themselves are not reduced —
wrapping happens only when the draw-time offset is computed, and that
wrapped value always lies in `[0, tileWidth)`. -/
theorem c9_parallax_offsets (s : GameState) (i : UpdateIn) (h : s.isPlaying = true) :
    (update s i).1.bgFarOffset =
      s.bgFarOffset + min MAX_SPEED (s.speed + ACCELERATION) * (3/10) ∧
    (update s i).1.bgMidOffset =
      s.bgMidOffset + min MAX_SPEED (s.speed + ACCELERATION) * (6/10) ∧
    (update s i).1.groundOffset =
      s.groundOffset + min MAX_SPEED (s.speed + ACCELERATION) ∧
    ((3/10 : ℚ) < 6/10 ∧ (6/10 : ℚ) < 1) ∧
    (∀ o w : ℚ, 0 < w → 0 ≤ wrapOffset o w ∧ wrapOffset o w < w) := by
  obtain ⟨h1, h2, h3⟩ := update_playing_offsets s i h
  exact ⟨h1, h2, h3, by norm_num, fun o w hw => wrapOffset_mem o w hw⟩

/-- Witness for C9 at a freshly started match. -/
theorem c9_parallax_offsets_witness :
    (update (initState 1) ⟨17, 0, 0⟩).1.groundOffset =
      (initState 1).groundOffset + min MAX_SPEED ((initState 1).speed + ACCELERATION) :=
  (c9_parallax_offsets (initState 1) ⟨17, 0, 0⟩ rfl).2.2.1

/-- A mid-game state whose stored far offset sits just below one tile. -/
def c9CexState : GameState := { initState 1 with bgFarOffset := 799 }

/-- Counterexample to C9 as stated: the stored far offset is not wrapped
modulo its 800-pixel tile width — one playing tick leaves it at
`799 + 5.03·0.3 = 800.509 ≥ 800`; only the draw-time value is wrapped. -/
theorem c9_stored_offset_not_wrapped_cex :
    (update c9CexState ⟨17, 0, 0⟩).1.bgFarOffset = 799 + (503/100) * (3/10) ∧
    CANVAS_W ≤ (update c9CexState ⟨17, 0, 0⟩).1.bgFarOffset := by
  have h := (update_playing_offsets c9CexState ⟨17, 0, 0⟩ rfl).1
  have hmin : min MAX_SPEED (c9CexState.speed + ACCELERATION) = 503/100 := by
    show min MAX_SPEED (INITIAL_SPEED + ACCELERATION) = 503/100
    rw [min_eq_right (by norm_num [MAX_SPEED, INITIAL_SPEED, ACCELERATION])]
    norm_num [INITIAL_SPEED, ACCELERATION]
  rw [h, hmin]
  constructor
  · rfl
  · show CANVAS_W ≤ c9CexState.bgFarOffset + (503/100) * (3/10)
    norm_num [CANVAS_W, c9CexState, initState]

/-! ### C7 -/

theorem runAnimStep_x (p : Player) (dt : ℚ) : (runAnimStep p dt).x = p.x := by
  simp only [runAnimStep]; split <;> (try split) <;> rfl

theorem runAnimStep_width (p : Player) (dt : ℚ) : (runAnimStep p dt).width = p.width := by
  simp only [runAnimStep]; split <;> (try split) <;> rfl

theorem runAnimStep_height (p : Player) (dt : ℚ) : (runAnimStep p dt).height = p.height := by
  simp only [runAnimStep]; split <;> (try split) <;> rfl

/-- The hit test only reads the player's box, which the run-animation step
never changes. -/
theorem collides_runAnim (p : Player) (dt : ℚ) (o : Obstacle) :
    collides (runAnimStep p dt) o = collides p o := by
  simp only [collides, runAnimStep_x, runAnimStep_width, runAnimStep_y, runAnimStep_height]

/-- Whether a playing tick survives is a function of the post-physics box
and the fresh obstacle list alone. -/
theorem update_isPlaying_playing_eq (s : GameState) (i : UpdateIn) (h : s.isPlaying = true) :
    (update s i).1.isPlaying =
      !((update s i).1.obstacles.any fun o => collides (physStepPlayer s.player) o) := by
  rw [update_playing_state _ _ h, mainTick_playing _ _ _ _ (by simp [h])]
  rw [collisionTick_isPlaying, collisionTick_obstacles]
  simp only [moveObstacles_isPlaying, spawnTick_isPlaying, moveObstacles_player,
    spawnTick_player, collides_runAnim]
  simp [h]

/-- C7 (amended): the delta time is the raw difference of timestamps — the
only substitution is `dt = 0` when no previous timestamp is recorded; no
clamping of large or non-positive values happens.  However, player motion,
speed, the obstacle list and the live flag are computed per-tick,
independent of `dt`, so a single 10-second tick neither moves the player
through the ground nor skips pending obstacles — `dt` only feeds the score,
the run-animation timing, and the game-over countdown. -/
theorem c7_dt_unclamped_physics (s : GameState) (i j : UpdateIn)
    (hr1 : i.r1 = j.r1) (hr2 : i.r2 = j.r2) :
    (s.lastTime = 0 → dtOf s i.time = 0) ∧
    (s.lastTime ≠ 0 → dtOf s i.time = i.time - s.lastTime) ∧
    ((update s i).1.player.y = (update s j).1.player.y ∧
     (update s i).1.player.dy = (update s j).1.player.dy ∧
     (update s i).1.player.isJumping = (update s j).1.player.isJumping ∧
     (update s i).1.obstacles = (update s j).1.obstacles ∧
     (update s i).1.speed = (update s j).1.speed ∧
     (update s i).1.frameCount = (update s j).1.frameCount ∧
     (update s i).1.nextSpawnThreshold = (update s j).1.nextSpawnThreshold ∧
     (update s i).1.isPlaying = (update s j).1.isPlaying) ∧
    (s.player.y ≤ PLAYER_BASE_Y → (update s i).1.player.y ≤ PLAYER_BASE_Y) := by
  have hobs : (update s i).1.obstacles = (update s j).1.obstacles := by
    by_cases h : s.isPlaying
    · rw [update_obstacles_playing _ _ h, update_obstacles_playing _ _ h, hr1]
    · simp only [Bool.not_eq_true] at h
      rw [update_dead_obstacles _ _ h, update_dead_obstacles _ _ h]
  refine ⟨fun h => dtOf_zero_lastTime s i.time h, fun h => dtOf_eq s i.time h,
    ⟨?_, ?_, ?_, hobs, ?_, ?_, ?_, ?_⟩, ?_⟩
  · by_cases h : s.isPlaying
    · rw [update_playing_player_y _ _ h, update_playing_player_y _ _ h]
    · simp only [Bool.not_eq_true] at h
      rw [update_dead_player _ _ h, update_dead_player _ _ h]
  · by_cases h : s.isPlaying
    · rw [update_playing_player_dy _ _ h, update_playing_player_dy _ _ h]
    · simp only [Bool.not_eq_true] at h
      rw [update_dead_player _ _ h, update_dead_player _ _ h]
  · by_cases h : s.isPlaying
    · rw [update_playing_player_isJumping _ _ h, update_playing_player_isJumping _ _ h]
    · simp only [Bool.not_eq_true] at h
      rw [update_dead_player _ _ h, update_dead_player _ _ h]
  · rw [update_speed, update_speed]
  · by_cases h : s.isPlaying
    · rw [update_frameCount_playing _ _ h, update_frameCount_playing _ _ h]
    · simp only [Bool.not_eq_true] at h
      rw [update_dead_frameCount _ _ h, update_dead_frameCount _ _ h]
  · by_cases h : s.isPlaying
    · rw [update_nextSpawnThreshold_playing _ _ h, update_nextSpawnThreshold_playing _ _ h, hr2]
    · simp only [Bool.not_eq_true] at h
      rw [update_dead_nextSpawnThreshold _ _ h, update_dead_nextSpawnThreshold _ _ h]
  · by_cases h : s.isPlaying
    · rw [update_isPlaying_playing_eq _ _ h, update_isPlaying_playing_eq _ _ h, hobs]
    · simp only [Bool.not_eq_true] at h
      rw [update_isPlaying_dead _ _ h, update_isPlaying_dead _ _ h]
  · intro hy
    by_cases h : s.isPlaying
    · rw [update_playing_player_y _ _ h]; exact physStepPlayer_y_le _
    · simp only [Bool.not_eq_true] at h
      rw [update_dead_player _ _ h]; exact hy

/-- Witness for C7: a 10-second stall tick and a 16 ms tick leave the
player box at the same place. -/
theorem c7_dt_unclamped_physics_witness :
    (update (initState 100) ⟨10100, 0, 0⟩).1.player.y =
      (update (initState 100) ⟨116, 0, 0⟩).1.player.y :=
  (c7_dt_unclamped_physics (initState 100) ⟨10100, 0, 0⟩ ⟨116, 0, 0⟩ rfl rfl).2.2.1.1

/-- Counterexample to C7 as stated: after a 10-second background stall the
raw `dtMs = 10000 ms` is not replaced by a previous/default value — it is
propagated in full into the score update; and a negative `dt` is propagated
too. -/
theorem c7_dt_propagates_cex :
    dtOf (initState 100) 10100 = 10000 ∧
    (update (initState 100) ⟨10100, 0, 0⟩).1.score =
      (8/100) * ((10000:ℚ) / (1667/100)) ∧
    dtOf (initState 100) 50 = -50 := by
  have hdt : dtOf (initState 100) 10100 = 10000 := by
    rw [dtOf_eq _ _ (by norm_num [initState])]
    norm_num [initState]
  refine ⟨hdt, ?_, ?_⟩
  · rw [update_score, if_pos (show (initState 100).isPlaying = true from rfl), hdt]
    show (0:ℚ) + (8/100) * (INITIAL_SPEED / INITIAL_SPEED) * ((10000:ℚ) / (1667/100)) = _
    norm_num [INITIAL_SPEED]
  · rw [dtOf_eq _ _ (by norm_num [initState])]
    norm_num [initState]

/-! ### C6 -/

/-- Projection that forgets the internal vertical velocity. -/
def eraseDy (s : GameState) : GameState :=
  { s with player := { s.player with dy := 0 } }

/-- On a dead state, a tick neither reads nor writes `dy`. -/
theorem update_dead_eraseDy_comm (s : GameState) (i : UpdateIn) (h : s.isPlaying = false) :
    (update (eraseDy s) i).1 = eraseDy (update s i).1 ∧
    (update (eraseDy s) i).2 = (update s i).2 := by
  have hde : (eraseDy s).isPlaying = false := h
  rw [update_dead_state _ _ h, update_dead_state _ _ hde, update_dead_out _ _ h,
    update_dead_out _ _ hde]
  exact ⟨rfl, rfl⟩

/-- A dead run is fully determined by the state with `dy` erased. -/
theorem dead_run_eraseDy (l : List UpdateIn) : ∀ s : GameState, s.isPlaying = false →
    emits s l = emits (eraseDy s) l ∧
    eraseDy (steps s l) = steps (eraseDy s) l := by
  induction l with
  | nil => intro s _; exact ⟨rfl, rfl⟩
  | cons i l ih =>
    intro s h
    have hcomm := update_dead_eraseDy_comm s i h
    rw [emits_cons, emits_cons, steps_cons, steps_cons, hcomm.1, hcomm.2]
    obtain ⟨h1, h2⟩ := ih (update s i).1 (update_isPlaying_dead s i h)
    rw [h1, h2]
    exact ⟨rfl, rfl⟩

theorem endJump_isPlaying (s : GameState) : (endJump s).isPlaying = s.isPlaying := rfl

theorem endJump_eraseDy (s : GameState) : eraseDy (endJump s) = eraseDy s := by
  simp only [endJump, eraseDy, endJumpPlayer]
  split <;> rfl

/-- C6 (amended): after the match has ended, `startJump` is a strict no-op.
`endJump` is a no-op except when the player died while still ascending
(`isJumping` and `dy < -2`), in which case it still damps the internal
`dy`; that difference is unobservable afterwards: every later state agrees
with the untouched run except on `dy`, and the `onGameOver` emission stream
is identical. -/
theorem c6_late_input_noop (s : GameState) (h : s.isPlaying = false) :
    startJump s = s ∧
    eraseDy (endJump s) = eraseDy s ∧
    (¬(s.player.isJumping = true ∧ s.player.dy < -2) → endJump s = s) ∧
    (∀ l : List UpdateIn,
      emits (endJump s) l = emits s l ∧
      eraseDy (steps (endJump s) l) = eraseDy (steps s l)) := by
  refine ⟨?_, endJump_eraseDy s, ?_, ?_⟩
  · rw [startJump, if_neg (by simp [h])]
  · intro hcond
    show { s with player := endJumpPlayer s.player } = s
    rw [endJumpPlayer, if_neg (by simpa using hcond)]
  · intro l
    have hdl : (endJump s).isPlaying = false := by rw [endJump_isPlaying]; exact h
    obtain ⟨e1, e2⟩ := dead_run_eraseDy l (endJump s) hdl
    obtain ⟨f1, f2⟩ := dead_run_eraseDy l s h
    rw [e1, f1, endJump_eraseDy s, e2, f2, endJump_eraseDy s]
    exact ⟨rfl, rfl⟩

/-- A state that died mid-ascent: the match is over, but the body is still
marked jumping with a strongly negative `dy` (reachable by colliding with a
flying obstacle while rising). -/
def c6CexState : GameState :=
  { initState 1 with
    isPlaying := false,
    gameOverTimerMs := GAME_OVER_DELAY,
    player :=
      { initPlayer with y := 325, dy := -10, isJumping := true, animState := .die } }

/-- Witness for the amended C6 at the concrete dead state. -/
theorem c6_late_input_noop_witness :
    startJump c6CexState = c6CexState :=
  (c6_late_input_noop c6CexState rfl).1

/-- Counterexample to C6 as stated: with the match over (`isPlaying`
false), `endJump` is not a silent no-op — it changes the stored state,
damping `dy` from `-10` to `-4.5`. -/
theorem c6_endJump_mutates_cex :
    c6CexState.isPlaying = false ∧
    (endJump c6CexState).player.dy = -(9/2) ∧
    endJump c6CexState ≠ c6CexState := by
  have hdy : (endJump c6CexState).player.dy = -(9/2) := by
    show (endJumpPlayer c6CexState.player).dy = -(9/2)
    rw [endJumpPlayer_pos _ rfl (by norm_num [c6CexState, initState, initPlayer])]
    show c6CexState.player.dy * (45/100) = -(9/2)
    norm_num [c6CexState, initState, initPlayer]
  refine ⟨rfl, hdy, ?_⟩
  intro hcontra
  have hproj := congrArg (fun x => x.player.dy) hcontra
  simp only at hproj
  rw [hdy] at hproj
  have : c6CexState.player.dy = -10 := rfl
  rw [this] at hproj
  norm_num at hproj

/-! ### Emission machinery for C1 -/

/-- Once the report is sent, no tick emits again and the flag stays set. -/
theorem update_sent_noop (s : GameState) (i : UpdateIn) (h : s.hasGameOverSent = true) :
    (update s i).2 = none ∧ (update s i).1.hasGameOverSent = true := by
  by_cases hp : s.isPlaying
  · exact ⟨update_out_playing s i hp,
      by rw [update_playing_hasGameOverSent _ _ hp]; exact h⟩
  · simp only [Bool.not_eq_true] at hp
    constructor
    · rw [update_dead_out _ _ hp, if_neg (by simp [h])]
    · rw [update_dead_state _ _ hp]
      simp [h]

theorem emits_sent_none (l : List UpdateIn) : ∀ s : GameState, s.hasGameOverSent = true →
    ∀ o ∈ emits s l, o = none := by
  induction l with
  | nil => intro s _ o ho; simp [emits_nil] at ho
  | cons i l ih =>
    intro s h o ho
    rw [emits_cons] at ho
    rcases List.mem_cons.mp ho with h1 | h1
    · rw [h1, (update_sent_noop s i h).1]
    · exact ih _ (update_sent_noop s i h).2 o h1

/-- What a tick that emits tells us about the states around it. -/
theorem update_emit_inv (s : GameState) (i : UpdateIn) (v : ℤ)
    (h : (update s i).2 = some v) :
    s.isPlaying = false ∧ s.hasGameOverSent = false ∧ v = ⌊s.score⌋ ∧
    (update s i).1.hasGameOverSent = true ∧
    s.gameOverTimerMs - dtOf s i.time ≤ 0 := by
  by_cases hp : s.isPlaying
  · rw [update_out_playing s i hp] at h; cases h
  · simp only [Bool.not_eq_true] at hp
    rw [update_dead_out _ _ hp] at h
    by_cases hc : s.hasGameOverSent = false ∧ s.gameOverTimerMs - dtOf s i.time ≤ 0
    · rw [if_pos hc] at h
      have hv : v = ⌊s.score⌋ := by
        injection h with h'
        exact h'.symm
      refine ⟨hp, hc.1, hv, ?_, hc.2⟩
      rw [update_dead_state _ _ hp]
      simp [hc.2]
    · rw [if_neg hc] at h; cases h

/-- At most one `onGameOver` emission along any run. -/
theorem emits_at_most_one (l : List UpdateIn) : ∀ s : GameState,
    ((emits s l).filterMap id).length ≤ 1 := by
  induction l with
  | nil => intro s; simp [emits_nil]
  | cons i l ih =>
    intro s
    rw [emits_cons]
    cases hout : (update s i).2 with
    | none =>
      show ((emits (update s i).1 l).filterMap id).length ≤ 1
      exact ih _
    | some v =>
      show (v :: (emits (update s i).1 l).filterMap id).length ≤ 1
      have hsent := (update_emit_inv s i v hout).2.2.2.1
      have hnil : (emits (update s i).1 l).filterMap id = [] := by
        rw [List.filterMap_eq_nil_iff]
        intro o ho
        rw [emits_sent_none l (update s i).1 hsent o ho]
        rfl
      rw [hnil]
      simp

/-- A run from the dying phase (dead, not yet reported, countdown armed at
the collision timestamp `tc`): the emission happens exactly on the first
tick whose timestamp is at least `GAME_OVER_DELAY` past `tc`, and it
carries the floor of the frozen score. -/
theorem dying_run : ∀ (l : List UpdateIn) (tc : ℚ) (s : GameState),
    s.isPlaying = false → s.hasGameOverSent = false → 0 < s.lastTime →
    s.gameOverTimerMs = GAME_OVER_DELAY - (s.lastTime - tc) →
    TimeMono s.lastTime l →
    (∀ n v, (emits s l).get? n = some (some v) →
      v = ⌊s.score⌋ ∧ n < l.length ∧
      tc + GAME_OVER_DELAY ≤ (l.getD n default).time ∧
      ∀ m, m < n → (l.getD m default).time < tc + GAME_OVER_DELAY) ∧
    (∀ n, n < l.length → (∀ m, m ≤ n → (emits s l).get? m = some none) →
      (l.getD n default).time < tc + GAME_OVER_DELAY) := by
  intro l
  induction l with
  | nil =>
    intro tc s _ _ _ _ _
    constructor
    · intro n v hn; rw [emits_nil] at hn; simp at hn
    · intro n hn; simp at hn
  | cons i l ih =>
    intro tc s hdead hsent hlt hphase hm
    rw [timeMono_cons] at hm
    have hdt : dtOf s i.time = i.time - s.lastTime := dtOf_eq s i.time (ne_of_gt hlt)
    by_cases hfire : s.gameOverTimerMs - dtOf s i.time ≤ 0
    · have htime : tc + GAME_OVER_DELAY ≤ i.time := by
        rw [hdt, hphase] at hfire
        linarith
      have hout : (update s i).2 = some ⌊s.score⌋ := by
        rw [update_dead_out _ _ hdead, if_pos ⟨hsent, hfire⟩]
      have hpostsent : (update s i).1.hasGameOverSent = true :=
        (update_emit_inv s i ⌊s.score⌋ hout).2.2.2.1
      constructor
      · intro n v hn
        rw [emits_cons] at hn
        cases n with
        | zero =>
          rw [List.get?_cons_zero, hout] at hn
          injection hn with hn1
          injection hn1 with hn2
          refine ⟨hn2.symm, by simp only [List.length_cons]; omega, ?_, ?_⟩
          · rw [List.getD_cons_zero]; exact htime
          · intro m hm'; omega
        | succ n =>
          rw [List.get?_cons_succ] at hn
          exfalso
          have hmem : some v ∈ emits (update s i).1 l := List.get?_mem hn
          have hnone := emits_sent_none l (update s i).1 hpostsent (some v) hmem
          cases hnone
      · intro n hn hall
        have h0 := hall 0 (Nat.zero_le n)
        rw [emits_cons, List.get?_cons_zero, hout] at h0
        injection h0 with h0'
        cases h0'
    · push_neg at hfire
      have hitime : i.time < tc + GAME_OVER_DELAY := by
        rw [hdt, hphase] at hfire
        linarith
      have hout : (update s i).2 = none := by
        rw [update_dead_out _ _ hdead,
          if_neg (fun hc => absurd hc.2 (not_le.mpr hfire))]
      have hpost := update_dead_state s i hdead
      have hpdead : (update s i).1.isPlaying = false := update_isPlaying_dead s i hdead
      have hpsent : (update s i).1.hasGameOverSent = false := by
        rw [hpost]
        show (s.hasGameOverSent || decide (s.gameOverTimerMs - dtOf s i.time ≤ 0)) = false
        simp [hsent, not_le.mpr hfire]
      have hplast : (update s i).1.lastTime = i.time := update_lastTime s i
      have hppos : 0 < (update s i).1.lastTime := by
        rw [hplast]; exact lt_of_lt_of_le hlt hm.1
      have hpphase : (update s i).1.gameOverTimerMs =
          GAME_OVER_DELAY - ((update s i).1.lastTime - tc) := by
        rw [hplast, hpost]
        show (if s.hasGameOverSent = true then s.gameOverTimerMs
          else s.gameOverTimerMs - dtOf s i.time) = _
        rw [if_neg (by simp [hsent]), hdt, hphase]
        ring
      have hpscore : (update s i).1.score = s.score := by rw [hpost]
      have hpm : TimeMono (update s i).1.lastTime l := by
        rw [hplast]; exact hm.2
      obtain ⟨ih1, ih2⟩ := ih tc (update s i).1 hpdead hpsent hppos hpphase hpm
      constructor
      · intro n v hn
        rw [emits_cons] at hn
        cases n with
        | zero =>
          rw [List.get?_cons_zero, hout] at hn
          injection hn with hn1
          cases hn1
        | succ n =>
          rw [List.get?_cons_succ] at hn
          obtain ⟨hv, hlen, htm, hearlier⟩ := ih1 n v hn
          refine ⟨by rw [hv, hpscore], by simp only [List.length_cons]; omega, ?_, ?_⟩
          · rw [List.getD_cons_succ]; exact htm
          · intro m hm'
            cases m with
            | zero => rw [List.getD_cons_zero]; exact hitime
            | succ m => rw [List.getD_cons_succ]; exact hearlier m (by omega)
      · intro n hn hall
        cases n with
        | zero => rw [List.getD_cons_zero]; exact hitime
        | succ n =>
          rw [List.getD_cons_succ]
          refine ih2 n (by simpa using hn) ?_
          intro m hm'
          have hthis := hall (m+1) (by omega)
          rw [emits_cons, List.get?_cons_succ] at hthis
          exact hthis

/-- A run from a live, unreported state: any emission is preceded by the
(unique) collision tick `c`, carries the floor of the score frozen on that
tick, and happens on the first tick at least `GAME_OVER_DELAY` past the
collision timestamp — never earlier, and if no emission has happened yet
the delay has not elapsed. -/
theorem playing_run : ∀ (l : List UpdateIn) (s : GameState),
    s.isPlaying = true → s.hasGameOverSent = false → 0 < s.lastTime →
    TimeMono s.lastTime l →
    (∀ n v, (emits s l).get? n = some (some v) →
      ∃ c, c < n ∧
        (steps s (l.take c)).isPlaying = true ∧
        (steps s (l.take (c+1))).isPlaying = false ∧
        v = ⌊(steps s (l.take (c+1))).score⌋ ∧
        (l.getD c default).time + GAME_OVER_DELAY ≤ (l.getD n default).time ∧
        (∀ m, c < m → m < n →
          (l.getD m default).time < (l.getD c default).time + GAME_OVER_DELAY)) ∧
    (∀ c n, c < n → n < l.length →
      (steps s (l.take c)).isPlaying = true →
      (steps s (l.take (c+1))).isPlaying = false →
      (∀ m, c < m → m ≤ n → (emits s l).get? m = some none) →
      (l.getD n default).time < (l.getD c default).time + GAME_OVER_DELAY) := by
  intro l
  induction l with
  | nil =>
    intro s _ _ _ _
    constructor
    · intro n v hn; rw [emits_nil] at hn; simp at hn
    · intro c n _ hn; simp at hn
  | cons i l ih =>
    intro s hplay hsent hlt hm
    rw [timeMono_cons] at hm
    have hout : (update s i).2 = none := update_out_playing s i hplay
    have hplast : (update s i).1.lastTime = i.time := update_lastTime s i
    have hppos : 0 < (update s i).1.lastTime := by
      rw [hplast]; exact lt_of_lt_of_le hlt hm.1
    have hpm : TimeMono (update s i).1.lastTime l := by
      rw [hplast]; exact hm.2
    by_cases hcol : (update s i).1.isPlaying = true
    · have hpsent : (update s i).1.hasGameOverSent = false := by
        rw [update_playing_hasGameOverSent _ _ hplay]; exact hsent
      obtain ⟨ih1, ih2⟩ := ih (update s i).1 hcol hpsent hppos hpm
      constructor
      · intro n v hn
        rw [emits_cons] at hn
        cases n with
        | zero =>
          rw [List.get?_cons_zero, hout] at hn
          injection hn with hn1
          cases hn1
        | succ n =>
          rw [List.get?_cons_succ] at hn
          obtain ⟨c, hcn, hc1, hc2, hc3, hc4, hc5⟩ := ih1 n v hn
          refine ⟨c + 1, by omega, ?_, ?_, ?_, ?_, ?_⟩
          · rw [List.take_succ_cons, steps_cons]; exact hc1
          · rw [List.take_succ_cons, steps_cons]; exact hc2
          · rw [List.take_succ_cons, steps_cons]; exact hc3
          · rw [List.getD_cons_succ, List.getD_cons_succ]; exact hc4
          · intro m hm1 hm2
            cases m with
            | zero => omega
            | succ m =>
              rw [List.getD_cons_succ, List.getD_cons_succ]
              exact hc5 m (by omega) (by omega)
      · intro c n hcn hnlen hcplay hcdead hall
        cases c with
        | zero =>
          exfalso
          rw [List.take_succ_cons, steps_cons] at hcdead
          have hcd : (update s i).1.isPlaying = false := hcdead
          rw [hcol] at hcd
          cases hcd
        | succ c =>
          cases n with
          | zero => omega
          | succ n =>
            rw [List.take_succ_cons, steps_cons] at hcplay hcdead
            rw [List.getD_cons_succ, List.getD_cons_succ]
            refine ih2 c n (by omega) (by simpa using hnlen) hcplay hcdead ?_
            intro m hm1 hm2
            have hthis := hall (m+1) (by omega) (by omega)
            rw [emits_cons, List.get?_cons_succ] at hthis
            exact hthis
    · simp only [Bool.not_eq_true] at hcol
      obtain ⟨htimer, hanim, hsent', hout'⟩ := update_collision s i hplay hcol
      have hpsent : (update s i).1.hasGameOverSent = false := by
        rw [hsent']; exact hsent
      have hphase : (update s i).1.gameOverTimerMs =
          GAME_OVER_DELAY - ((update s i).1.lastTime - i.time) := by
        rw [htimer, hplast]; ring
      obtain ⟨d1, d2⟩ := dying_run l i.time (update s i).1 hcol hpsent hppos hphase hpm
      constructor
      · intro n v hn
        rw [emits_cons] at hn
        cases n with
        | zero =>
          rw [List.get?_cons_zero, hout] at hn
          injection hn with hn1
          cases hn1
        | succ n =>
          rw [List.get?_cons_succ] at hn
          obtain ⟨hv, hlen, htm, hearlier⟩ := d1 n v hn
          refine ⟨0, by omega, hplay, ?_, ?_, ?_, ?_⟩
          · rw [List.take_succ_cons, steps_cons]
            exact hcol
          · rw [List.take_succ_cons, steps_cons]
            exact hv
          · rw [List.getD_cons_zero, List.getD_cons_succ]
            exact htm
          · intro m h1 h2
            cases m with
            | zero => omega
            | succ m =>
              rw [List.getD_cons_succ, List.getD_cons_zero]
              exact hearlier m (by omega)
      · intro c n hcn hnlen hcplay hcdead hall
        cases c with
        | zero =>
          cases n with
          | zero => omega
          | succ n =>
            rw [List.getD_cons_succ, List.getD_cons_zero]
            refine d2 n (by simpa using hnlen) ?_
            intro m hm'
            have hthis := hall (m+1) (by omega) (by omega)
            rw [emits_cons, List.get?_cons_succ] at hthis
            exact hthis
        | succ c =>
          exfalso
          rw [List.take_succ_cons, steps_cons] at hcplay
          have habs : (steps (update s i).1 (l.take c)).isPlaying = false :=
            isPlaying_absorb _ _ hcol
          rw [habs] at hcplay
          cases hcplay

/-! ### C1 -/

/-- C1: from the start of a match with monotone frame timestamps, the
external game-over collaborator is invoked at most once; any invocation
carries the floor of the score frozen on the collision tick — a
non-negative integer — and lands on a tick whose timestamp is at least
`GAME_OVER_DELAY` (1000 ms of accumulated delta time) past the collision
tick's timestamp, every earlier post-collision tick falling short of the
delay; conversely, on any post-collision tick not yet reported the delay
has not yet elapsed — so the callback fires exactly once, exactly when the
delay has fully elapsed, and never again. -/
theorem c1_gameOver_exactly_once (t0 : ℚ) (l : List UpdateIn) (h0 : 0 < t0)
    (hm : TimeMono t0 l) :
    (((emits (initState t0) l).filterMap id).length ≤ 1) ∧
    (∀ n v, (emits (initState t0) l).get? n = some (some v) →
      0 ≤ v ∧
      ∃ c, c < n ∧
        (stateAfter t0 l c).isPlaying = true ∧
        (stateAfter t0 l (c+1)).isPlaying = false ∧
        v = ⌊(stateAfter t0 l (c+1)).score⌋ ∧
        (l.getD c default).time + GAME_OVER_DELAY ≤ (l.getD n default).time ∧
        (∀ m, c < m → m < n → (l.getD m default).time <
          (l.getD c default).time + GAME_OVER_DELAY)) ∧
    (∀ c n, c < n → n < l.length →
      (stateAfter t0 l c).isPlaying = true →
      (stateAfter t0 l (c+1)).isPlaying = false →
      (∀ m, c < m → m ≤ n → (emits (initState t0) l).get? m = some none) →
      (l.getD n default).time < (l.getD c default).time + GAME_OVER_DELAY) := by
  have hminit : TimeMono (initState t0).lastTime l := hm
  obtain ⟨p1, p2⟩ := playing_run l (initState t0) rfl rfl h0 hminit
  refine ⟨emits_at_most_one l _, ?_, p2⟩
  intro n v hn
  obtain ⟨c, hcn, hc1, hc2, hc3, hc4, hc5⟩ := p1 n v hn
  refine ⟨?_, c, hcn, hc1, hc2, hc3, hc4, hc5⟩
  have hscore : 0 ≤ (steps (initState t0) (l.take (c+1))).score := by
    have hms := score_mono_steps (l.take (c+1)) (initState t0)
      (by norm_num [initState, INITIAL_SPEED]) h0 (timeMono_take t0 l (c+1) hm)
    simpa [initState] using hms
  rw [hc3]
  exact Int.floor_nonneg.mpr hscore

/-- Witness for C1 over a concrete one-tick match. -/
theorem c1_gameOver_exactly_once_witness :
    ((emits (initState 1) [⟨17, 0, 0⟩]).filterMap id).length ≤ 1 :=
  (c1_gameOver_exactly_once 1 [⟨17, 0, 0⟩] (by norm_num)
    (by show List.Chain' (· ≤ ·) [(1:ℚ), 17]; norm_num)).1

end WeddingRun
